import Mathlib

/-!
# Application layer of the serial-port file transfer

A shallow embedding of `src/application_layer.c`: the packet serialisation
(`send_packet`, `create_control_packet`, `fill_data_packet_header`,
`send_data_packet`), the transmitter branch and the receiver branch of
`applicationLayer`.

Conventions of the embedding.

* A byte is a natural number; a byte vector (`ByteVector`) is a `List Nat`.
* Objects pushed through a `uint8_t *` cast are laid out little-endian
  (`leBytes`), and read back through a pointer cast with `leVal`;
  `size_t` is 8 bytes wide.
* The operating system and the link layer are oracles: every loop iteration
  is given the results of the calls it may make (`TxIter`, `RxIter`).
  A loop that runs out of oracle answers is still `running`.
* Every external effect is recorded, in program order, as an `Event`.
* The buffer `uint8_t packet_data[MAX_PAYLOAD_SIZE]` is a function from
  offsets to bytes of which the offsets below `MAX_PAYLOAD_SIZE` are the
  array. `llread` overwrites its first bytes and leaves the others as they
  were. An access outside the array has no defined behaviour: the run ends
  there, with the outcome `overrun`.
* `read(fd, packet_data, count)` hands over at most `count` of the bytes the
  file system has for the call.
* `static` variables are threaded explicitly (`sequence_number`,
  `total_bytes_written`).
-/

namespace AppLayer

/-! ## Declarations of the headers -/

/-- The declarations of `application_layer/packet.h` used by the code: the
enumeration constants of `enum packet_type` and of
`enum control_packet_field_type`, and the three `sizeof` values the code
takes of them. The header is not part of the sources, so they are parameters. -/
structure PacketH where
  START : Nat
  DATA : Nat
  END : Nat
  FILE_SIZE : Nat
  FILE_NAME : Nat
  sizeof_packet_type : Nat
  sizeof_field_type : Nat
  sizeof_DATA : Nat

/-- The constraints C puts on the header: the three packet types are distinct
constants that fit their object representation, and `sizeof(DATA)` leaves room
for a payload. -/
structure PacketH.WF (L : PacketH) : Prop where
  start_ne_data : L.START ≠ L.DATA
  start_ne_end : L.START ≠ L.END
  data_ne_end : L.DATA ≠ L.END
  start_lt : L.START < 256 ^ L.sizeof_packet_type
  data_lt : L.DATA < 256 ^ L.sizeof_packet_type
  end_lt : L.END < 256 ^ L.sizeof_packet_type
  sizeof_DATA_pos : 0 < L.sizeof_DATA
  sizeof_DATA_le : L.sizeof_DATA ≤ 8

/-- Modelled from the spec: `packet.h` is missing; the spec gives the packet
kind "a single-byte discriminant on the wire" and counts "1 discriminant byte"
in `MAX_PAYLOAD_SIZE`. The constants themselves are not given by the spec;
any distinct values do. -/
def specPacketH : PacketH where
  START := 2
  DATA := 1
  END := 3
  FILE_SIZE := 0
  FILE_NAME := 1
  sizeof_packet_type := 1
  sizeof_field_type := 1
  sizeof_DATA := 1

/-- Width of `size_t` in bytes. -/
def sizeof_size_t : Nat := 8

/-- The macro `MAX_PAYLOAD_SIZE`, `(1000 - 3 - sizeof(DATA))`. -/
def MAX_PAYLOAD_SIZE (L : PacketH) : Nat := 1000 - 3 - L.sizeof_DATA

/-! ## Bytes -/

/-- The object representation of `v` on `n` bytes, least significant first:
what `bv_push(bv, (uint8_t *)&v, n)` appends. -/
def leBytes : Nat → Nat → List Nat
  | 0, _ => []
  | n + 1, v => v % 256 :: leBytes n (v / 256)

/-- The value of an object read back from its bytes: `*(T *)ptr`. -/
def leVal : List Nat → Nat
  | [] => 0
  | b :: bs => b + 256 * leVal bs

/-- The function `strlen` on the memory a `char *` points to. -/
def strlen (s : List Nat) : Nat := (s.takeWhile (fun c => c ≠ 0)).length

/-- The type `Packet`: a type and a byte vector that may be `NULL`. -/
structure Packet where
  type : Nat
  information : Option (List Nat)
deriving DecidableEq, Repr

/-- The function `bv_push` on a vector that may still have to be created. -/
def bv_push (bv : Option (List Nat)) (data : List Nat) : Option (List Nat) :=
  some (bv.getD [] ++ data)

/-! ## Events -/

/-- The external effects of a run, in program order. -/
inductive Event where
  | llwrite (bytes : List Nat) (result : Int)
  | open_file (name : List Nat) (fd : Int)
  | write (fd : Int) (bytes : List Nat) (result : Int)
  | info (percent : ℚ)
  | close (fd : Int)
  | llclose
  | exit (code : Int)
deriving DecidableEq

/-- How far control has come. `overrun`: an access outside an array was
reached, and the behaviour of the program is undefined from there on. -/
inductive Outcome where
  | running
  | returned
  | exited
  | overrun
deriving DecidableEq, Repr

/-! ## Serialisation (lines 17-120) -/

/-- The function `send_packet`: the bytes handed to `llwrite`, and the result
of `llwrite`, which the function returns. -/
def send_packet (L : PacketH) (packet : Packet) (llwrite : Int) : List Nat × Int :=
  let bv := leBytes L.sizeof_packet_type packet.type
  let bv := match packet.information with
    | none => bv
    | some information => bv ++ information
  (bv, llwrite)

/-- The function `create_control_packet`. `file_name` is the memory the
`char *` points to. -/
def create_control_packet (L : PacketH) (packet_type file_size : Nat)
    (file_name : List Nat) : Packet :=
  if packet_type = L.START then
    let information : Option (List Nat) := some []
    let file_size_length := sizeof_size_t
    let information := bv_push information (leBytes L.sizeof_field_type L.FILE_SIZE)
    let information := bv_push information (leBytes sizeof_size_t file_size_length)
    let information := bv_push information (leBytes file_size_length file_size)
    let file_name_length := strlen file_name
    let information := bv_push information (leBytes L.sizeof_field_type L.FILE_NAME)
    let information := bv_push information (leBytes sizeof_size_t file_name_length)
    let information := bv_push information (file_name.take file_name_length)
    { type := packet_type, information := information }
  else
    { type := packet_type, information := none }

/-- The function `send_control_packet`. -/
def send_control_packet (L : PacketH) (packet_type file_size : Nat)
    (file_name : List Nat) (llwrite : Int) : List Nat × Int :=
  send_packet L (create_control_packet L packet_type file_size file_name) llwrite

/-- The function `fill_data_packet_header`; `fragment_size` is a `uint16_t`,
`sequence_number` a `uint8_t`. The packet it is given is never `NULL`. -/
def fill_data_packet_header (packet : Packet) (fragment_size sequence_number : Nat) :
    Packet :=
  let information := packet.information.getD []
  let information := information ++ [sequence_number % 256]
  let information := information ++ [((fragment_size &&& 0xFF00) >>> 8) % 256]
  let information := information ++ [(fragment_size &&& 0xFF) % 256]
  { packet with information := some information }

/-- The function `send_data_packet`, with the static `sequence_number` passed in
and returned: the bytes handed to `llwrite`, the result, the new counter. -/
def send_data_packet (L : PacketH) (sequence_number : Nat) (buf : List Nat) (len : Nat)
    (llwrite : Int) : (List Nat × Int) × Nat :=
  let packet : Packet := { type := L.DATA, information := some [] }
  let packet := fill_data_packet_header packet (len % 65536) sequence_number
  let sequence_number := (sequence_number + 1) % 256
  let packet := { packet with information := bv_push packet.information (buf.take len) }
  (send_packet L packet llwrite, sequence_number)

/-! ## The transmitter branch (lines 272-312) -/

/-- What one iteration of the transmitter loop gets from outside: what the
file system answers to a `read` as a function of the count asked for (`none`
is `-1`, otherwise the bytes it has for the call), and the result of the
`llwrite` the iteration may call. -/
structure TxIter where
  read : Nat → Option (List Nat)
  llwrite : Int

/-- The call `read(fd, packet_data, count)`: `-1` (`none`), or at most `count`
bytes stored at the start of `packet_data`. -/
def sys_read (it : TxIter) (count : Nat) : Option (List Nat) :=
  (it.read count).map (fun bytes => bytes.take count)

/-- The transmitter loop `while (true)` of lines 286-307, from the value of
the static `sequence_number`: the events, the counter afterwards, and whether
the loop was left. -/
def txLoop (L : PacketH) : Nat → List TxIter → List Event × Nat × Bool
  | sequence_number, [] => ([], sequence_number, false)
  | sequence_number, it :: rest =>
    match sys_read it (MAX_PAYLOAD_SIZE L) with
    | none => ([], sequence_number, true)
    | some packet_data =>
      let bytes_read := packet_data.length
      if bytes_read = 0 then
        let r := send_control_packet L L.END 0 [0] it.llwrite
        ([Event.llwrite r.1 r.2], sequence_number, true)
      else
        let r := send_data_packet L sequence_number packet_data bytes_read it.llwrite
        if r.1.2 = -1 then
          ([Event.llwrite r.1.1 r.1.2], r.2, true)
        else
          let t := txLoop L r.2 rest
          (Event.llwrite r.1.1 r.1.2 :: t.1, t.2)

/-- What the transmitter gets from outside: whether `llopen` gave a connection,
the result of `open`, of `stat` (`none` is failure, otherwise `st_size`), of the
`llwrite` of the START packet, and the iterations of the loop. -/
structure TxEnv where
  llopen : Bool
  open_fd : Int
  stat : Option Nat
  start_llwrite : Int
  iters : List TxIter

/-- The result of a run of the transmitter. -/
structure TxRun where
  trace : List Event
  sequence_number : Nat
  outcome : Outcome

/-- The function `init_transmission`: the events and the return value. -/
def init_transmission (L : PacketH) (filename : List Nat) (stat : Option Nat)
    (llwrite : Int) : List Event × Int :=
  match stat with
  | none => ([], -1)
  | some st_size =>
    let r := send_control_packet L L.START st_size filename llwrite
    if r.2 = -1 then ([Event.llwrite r.1 r.2], -1) else ([Event.llwrite r.1 r.2], 1)

/-- The function `applicationLayer` in the role `LL_TX`. -/
def applicationLayer_tx (L : PacketH) (sequence_number : Nat) (filename : List Nat)
    (env : TxEnv) : TxRun :=
  if env.llopen = false then
    { trace := [Event.exit (-1)], sequence_number := sequence_number, outcome := Outcome.exited }
  else
    let fd := env.open_fd
    let t0 := [Event.open_file (filename.take (strlen filename)) fd]
    if fd = -1 then
      { trace := t0 ++ [Event.exit (-1)], sequence_number := sequence_number,
        outcome := Outcome.exited }
    else
      let i := init_transmission L filename env.stat env.start_llwrite
      if i.2 = -1 then
        { trace := t0 ++ i.1 ++ [Event.exit (-1)], sequence_number := sequence_number,
          outcome := Outcome.exited }
      else
        let t := txLoop L sequence_number env.iters
        if t.2.2 then
          { trace := t0 ++ i.1 ++ t.1 ++ [Event.close fd, Event.llclose],
            sequence_number := t.2.1, outcome := Outcome.returned }
        else
          { trace := t0 ++ i.1 ++ t.1, sequence_number := t.2.1, outcome := Outcome.running }

/-- The packets handed to `llwrite`, in order. -/
def sentPackets : List Event → List (List Nat)
  | [] => []
  | Event.llwrite bytes _ :: t => bytes :: sentPackets t
  | _ :: t => sentPackets t

/-! ## The receiver branch (lines 181-271) -/

/-- The memory after a packet is stored at its start: the bytes beyond the
packet are what they were. -/
def storePacket (packet_data : Nat → Nat) (pkt : List Nat) : Nat → Nat :=
  fun i => pkt.getD i (packet_data i)

/-- The call `llread(connection, packet_data)` that receives `pkt`, on an array
of `size` bytes: the array afterwards; a packet longer than the array overruns
it (`none`). -/
def llread_store (size : Nat) (packet_data : Nat → Nat) (pkt : List Nat) :
    Option (Nat → Nat) :=
  if pkt.length ≤ size then some (storePacket packet_data pkt) else none

/-- The `n` bytes of the memory from offset `ptr` on. -/
def readBytes (packet_data : Nat → Nat) (ptr n : Nat) : List Nat :=
  (List.range n).map (fun i => packet_data (ptr + i))

/-- The `n` bytes of the array of `size` bytes from offset `ptr` on; `none` when
they do not all lie in the array. -/
def readArray (size : Nat) (packet_data : Nat → Nat) (ptr n : Nat) : Option (List Nat) :=
  if ptr + n ≤ size then some (readBytes packet_data ptr n) else none

/-- The calls `calloc(filename_length + strlen("_test") + 1, 1)` and
`sprintf(file_name, "%.*s_test", filename_length, packet_ptr)`, with `calloc`
taken to return a block. The precision `%.*s` reads is an `int`: the low 32
bits of `filename_length`, and a negative one is no limit. The characters are
read from the array up to the precision or up to a NUL; `none` when that runs
out of the array, or when the name, `_test` and the terminator do not fit the
block. -/
def sprintf_test (size : Nat) (packet_data : Nat → Nat) (packet_ptr filename_length : Nat) :
    Option (List Nat) :=
  let precision := filename_length % 2 ^ 32
  let limited := decide (precision < 2 ^ 31)
  let window := if limited then min precision (size - packet_ptr) else size - packet_ptr
  let name := (readBytes packet_data packet_ptr window).takeWhile (fun c => c ≠ 0)
  let in_array := decide (name.length < window) || (limited && decide (packet_ptr + precision ≤ size))
  let block := (filename_length + 5 + 1) % 2 ^ 64
  if in_array && decide (name.length + 5 + 1 ≤ block) then
    some (name ++ [95, 116, 101, 115, 116])
  else none

/-- What the START branch (lines 207-230) reads off the buffer. -/
structure StartFields where
  file_size : Nat
  filename_length : Nat
  name_ptr : Nat
  file_name : List Nat
deriving DecidableEq, Repr

/-- The START branch up to the `open`, from `packet_ptr` just behind the packet
type; `none` when it reads outside `packet_data`. -/
def startBranch (L : PacketH) (packet_data : Nat → Nat) (packet_ptr : Nat) :
    Option StartFields :=
  let packet_ptr := packet_ptr + L.sizeof_field_type
  let packet_ptr := packet_ptr + sizeof_size_t
  match readArray (MAX_PAYLOAD_SIZE L) packet_data packet_ptr sizeof_size_t with
  | none => none
  | some file_size_bytes =>
    let file_size := leVal file_size_bytes
    let packet_ptr := packet_ptr + sizeof_size_t
    let packet_ptr := packet_ptr + L.sizeof_field_type
    match readArray (MAX_PAYLOAD_SIZE L) packet_data packet_ptr sizeof_size_t with
    | none => none
    | some filename_length_bytes =>
      let filename_length := leVal filename_length_bytes
      let packet_ptr := packet_ptr + sizeof_size_t
      match sprintf_test (MAX_PAYLOAD_SIZE L) packet_data packet_ptr filename_length with
      | none => none
      | some file_name =>
        some { file_size := file_size, filename_length := filename_length,
               name_ptr := packet_ptr, file_name := file_name }

/-- What the DATA branch (lines 241-255) reads off the buffer: the sequence
number, the fragment size, and the bytes it passes to `write`. -/
structure DataFields where
  sequence_number : Nat
  fragment_size : Nat
  bytes : List Nat
deriving DecidableEq, Repr

/-- The DATA branch up to the `write`, from `packet_ptr` just behind the packet
type; `none` when the header or the bytes passed to `write` do not all lie in
`packet_data`. -/
def dataBranch (L : PacketH) (packet_data : Nat → Nat) (packet_ptr : Nat) :
    Option DataFields :=
  if packet_ptr + 3 ≤ MAX_PAYLOAD_SIZE L then
    let sequence_number := packet_data packet_ptr % 256
    let packet_ptr := packet_ptr + 1
    let fragment_size_h := packet_data packet_ptr % 256
    let packet_ptr := packet_ptr + 1
    let fragment_size_l := packet_data packet_ptr % 256
    let packet_ptr := packet_ptr + 1
    let fragment_size := ((fragment_size_h <<< 8) ||| fragment_size_l) % 65536
    match readArray (MAX_PAYLOAD_SIZE L) packet_data packet_ptr fragment_size with
    | none => none
    | some bytes =>
      some { sequence_number := sequence_number, fragment_size := fragment_size,
             bytes := bytes }
  else none

/-- What one iteration of the receiver loop gets from outside: the result of
`llread` (`none` is `-1`, otherwise the packet stored in the buffer), the
result of the `open` it may call, and the result of the `write` it may call,
as a function of the number of bytes asked for. -/
structure RxIter where
  llread : Option (List Nat)
  open_ret : Int
  write_ret : Nat → Int

/-- The variables of the receiver branch: the buffer, the locals `fd` and
`file_size`, and the static `total_bytes_written`. -/
structure RxState where
  packet_data : Nat → Nat
  fd : Int
  file_size : Nat
  total_bytes_written : Nat

/-- The exact value of `total_bytes_written * 100.0 / file_size`. -/
def progress (total_bytes_written file_size : Nat) : ℚ :=
  (total_bytes_written : ℚ) * 100 / (file_size : ℚ)

/-- The receiver loop `while (true)` of lines 188-268: the events, the
variables afterwards, and how the loop ended (`returned` is a `break`,
`overrun` an access outside `packet_data`). -/
def rxLoop (L : PacketH) : RxState → List RxIter → List Event × RxState × Outcome
  | st, [] => ([], st, Outcome.running)
  | st, it :: rest =>
    match it.llread with
    | none => ([], st, Outcome.returned)
    | some pkt =>
      match llread_store (MAX_PAYLOAD_SIZE L) st.packet_data pkt with
      | none => ([], st, Outcome.overrun)
      | some stored =>
        let st := { st with packet_data := stored }
        let packet_ptr := 0
        match readArray (MAX_PAYLOAD_SIZE L) st.packet_data packet_ptr L.sizeof_packet_type with
        | none => ([], st, Outcome.overrun)
        | some packet_type_bytes =>
          let packet_type := leVal packet_type_bytes
          let packet_ptr := packet_ptr + L.sizeof_packet_type
          if packet_type = L.END then
            ([], st, Outcome.returned)
          else if packet_type = L.START then
            match startBranch L st.packet_data packet_ptr with
            | none => ([], st, Outcome.overrun)
            | some f =>
              let fd := it.open_ret
              let st := { st with file_size := f.file_size, fd := fd }
              if fd = -1 then
                ([Event.open_file f.file_name fd, Event.exit (-1)], st, Outcome.exited)
              else
                let t := rxLoop L st rest
                (Event.open_file f.file_name fd :: t.1, t.2)
          else if packet_type = L.DATA then
            match dataBranch L st.packet_data packet_ptr with
            | none => ([], st, Outcome.overrun)
            | some d =>
              let bytes_written := it.write_ret d.fragment_size
              let w := Event.write st.fd d.bytes bytes_written
              if bytes_written = -1 then
                ([w, Event.exit (-1)], st, Outcome.exited)
              else if bytes_written ≠ 0 then
                let total := (((st.total_bytes_written : Int) + bytes_written) % 2 ^ 64).toNat
                let st := { st with total_bytes_written := total }
                let t := rxLoop L st rest
                (w :: Event.info (progress total st.file_size) :: t.1, t.2)
              else
                let t := rxLoop L st rest
                (w :: t.1, t.2)
          else
            rxLoop L st rest

/-- The result of a run of the receiver. -/
structure RxRun where
  trace : List Event
  state : RxState
  outcome : Outcome

/-- The variables at the start of the receiver branch: the buffer and
`file_size` hold whatever the stack holds, `fd` is `-1`. -/
def rxInit (packet_data : Nat → Nat) (file_size total_bytes_written : Nat) : RxState :=
  { packet_data := packet_data, fd := -1, file_size := file_size,
    total_bytes_written := total_bytes_written }

/-- The function `applicationLayer` in the role `LL_RX`. -/
def applicationLayer_rx (L : PacketH) (packet_data : Nat → Nat) (file_size : Nat)
    (total_bytes_written : Nat) (llopen : Bool) (iters : List RxIter) : RxRun :=
  let st : RxState := rxInit packet_data file_size total_bytes_written
  if llopen = false then
    { trace := [Event.exit (-1)], state := st, outcome := Outcome.exited }
  else
    let t := rxLoop L st iters
    match t.2.2 with
    | Outcome.returned =>
      { trace := t.1 ++ (if t.2.1.fd ≠ -1 then [Event.close t.2.1.fd] else []) ++ [Event.llclose],
        state := t.2.1, outcome := Outcome.returned }
    | o => { trace := t.1, state := t.2.1, outcome := o }

/-- The content of the file the receiver has open, after the events: `open`
with `O_TRUNC` empties it, a `write` that returns `n >= 0` appends the first
`n` bytes it was given. -/
def outputFile : List Nat → List Event → List Nat
  | content, [] => content
  | _, Event.open_file _ _ :: t => outputFile [] t
  | content, Event.write _ bytes result :: t =>
    outputFile (content ++ bytes.take result.toNat) t
  | content, _ :: t => outputFile content t

/-- The byte lists passed to `write`, in order. -/
def writes : List Event → List (List Nat)
  | [] => []
  | Event.write _ bytes _ :: t => bytes :: writes t
  | _ :: t => writes t

/-! ## Environments in which everything succeeds -/

/-- The fragments a file holding `content` is read in when every
`read(fd, packet_data, max)` returns the next `min(max, remaining)` bytes, until
nothing remains. -/
def chunks (max : Nat) : Nat → List Nat → List (List Nat)
  | 0, _ => []
  | fuel + 1, content =>
    if content.take max = [] then []
    else content.take max :: chunks max fuel (content.drop max)

/-- What a file holding `content` answers to the `k`-th `read` (from 0) of a
reader that asks for `count` bytes every time: the next `min(count, remaining)`
bytes. -/
def fileRead (content : List Nat) (k count : Nat) : Option (List Nat) :=
  some ((content.drop (k * count)).take count)

/-- Loop iterations of the transmitter, the first of which is the `k`-th, in
which the `read` calls are answered by a file holding `content` and every
`llwrite` succeeds. -/
def readsFile (content : List Nat) : Nat → List TxIter → Prop
  | _, [] => True
  | k, it :: rest =>
    (∀ count, it.read count = fileRead content k count) ∧ it.llwrite ≠ -1 ∧
      readsFile content (k + 1) rest

/-- The environment of a run of the transmitter in which every operation
succeeds on a file holding `content`: the link opens, the file opens, `stat`
gives its size, every `read` returns the next `min(count, remaining)` bytes,
every `llwrite` succeeds, and the iterations do not run out before the file
does. -/
structure TxEnv.succeeds (env : TxEnv) (content : List Nat) : Prop where
  llopen : env.llopen = true
  open_fd : env.open_fd ≠ -1
  stat : env.stat = some content.length
  start_llwrite : env.start_llwrite ≠ -1
  iters : readsFile content 0 env.iters
  enough : content.length < env.iters.length

/-- The iterations `k`, `k + 1`, ... (`n` of them) of a transmitter reading a
file holding `content`, every `llwrite` returning `ok`. -/
def fileIters (content : List Nat) (ok : Int) : Nat → Nat → List TxIter
  | _, 0 => []
  | k, n + 1 => { read := fileRead content k, llwrite := ok } :: fileIters content ok (k + 1) n

/-- An environment of the transmitter in which every operation succeeds on a
file holding `content`. -/
def okTxEnv (content : List Nat) : TxEnv :=
  { llopen := true, open_fd := 3, stat := some content.length, start_llwrite := 0,
    iters := fileIters content 0 0 (content.length + 1) }

/-- Loop iterations of the receiver in which `llread` delivers the given
packets, `open` returns `fd` and `write` writes all it is given. -/
def rxIters (pkts : List (List Nat)) (fd : Int) : List RxIter :=
  pkts.map (fun p => { llread := some p, open_ret := fd, write_ret := fun n => (n : Int) })

/-- An iteration of the receiver loop in which `llread` delivers `pkt`, `open`
succeeds and `write` writes all it is given. -/
def RxIter.succeeds (it : RxIter) (pkt : List Nat) : Prop :=
  it.llread = some pkt ∧ it.open_ret ≠ -1 ∧ ∀ n, it.write_ret n = (n : Int)

/-- A session of calls to `send_data_packet`, each with its buffer and the
result of its `llwrite`, from the value of the static `sequence_number`: what
each call hands to `llwrite` and returns, and the counter afterwards. -/
def send_data_calls (L : PacketH) : Nat → List (List Nat × Int) → List (List Nat × Int) × Nat
  | sequence_number, [] => ([], sequence_number)
  | sequence_number, (buf, llwrite) :: rest =>
    let r := send_data_packet L sequence_number buf buf.length llwrite
    let t := send_data_calls L r.2 rest
    (r.1 :: t.1, t.2)

/-- An iteration of the transmitter loop after which the loop goes on: `read`
returned some bytes and the Data packet was sent. -/
def TxIter.continues (L : PacketH) (it : TxIter) : Prop :=
  ∃ bs, sys_read it (MAX_PAYLOAD_SIZE L) = some bs ∧ bs ≠ [] ∧ it.llwrite ≠ -1

/-- A `read` returns 0 before any `read` returns `-1` and before any send of a
Data packet fails. -/
def eofFirst (L : PacketH) (iters : List TxIter) : Prop :=
  ∃ pre it post, iters = pre ++ it :: post ∧ (∀ j ∈ pre, j.continues L) ∧
    sys_read it (MAX_PAYLOAD_SIZE L) = some []

/-- The sequence number a Data packet carries on the wire: the byte behind the
packet type, which is the byte the receiver reads as `sequence_number`. -/
def wireSequenceNumber (L : PacketH) (pkt : List Nat) : Nat :=
  pkt.getD L.sizeof_packet_type 0

/-! ## The wire format, as the specification words it -/

/-- A Data packet: `[Data-discriminant, sequence_number, length_high_byte,
length_low_byte] + fragment_bytes`. -/
def dataWire (L : PacketH) (s : Nat) (F : List Nat) : List Nat :=
  leBytes L.sizeof_packet_type L.DATA ++ [s % 256, F.length / 256, F.length % 256] ++ F

/-- Data packets for the fragments, numbered from `s` on. -/
def dataWires (L : PacketH) : Nat → List (List Nat) → List (List Nat)
  | _, [] => []
  | s, F :: Fs => dataWire L s F :: dataWires L (s + 1) Fs

/-- A Start packet: the Start discriminant, the field `FileSize` with its
length and 8 value bytes, the field `FileName` with its length and the name. -/
def startWire (L : PacketH) (S : Nat) (N : List Nat) : List Nat :=
  leBytes L.sizeof_packet_type L.START ++
    (leBytes L.sizeof_field_type L.FILE_SIZE ++ leBytes 8 8 ++ leBytes 8 S) ++
    (leBytes L.sizeof_field_type L.FILE_NAME ++ leBytes 8 N.length ++ N)

/-- An End packet: the End discriminant, nothing else. -/
def endWire (L : PacketH) : List Nat := leBytes L.sizeof_packet_type L.END

/-! ## Bytes: lemmas -/

theorem length_leBytes (n v : Nat) : (leBytes n v).length = n := by
  induction n generalizing v with
  | zero => rfl
  | succ n ih => simp [leBytes, ih]

theorem leVal_leBytes (n v : Nat) (h : v < 256 ^ n) : leVal (leBytes n v) = v := by
  induction n generalizing v with
  | zero => simp at h; simp [leBytes, leVal, h]
  | succ n ih =>
    have h2 : v / 256 < 256 ^ n := by
      rw [Nat.div_lt_iff_lt_mul (by norm_num)]
      rw [pow_succ] at h
      exact h
    simp only [leBytes, leVal, ih _ h2]
    omega

theorem length_readBytes (mem : Nat → Nat) (ptr n : Nat) :
    (readBytes mem ptr n).length = n := by
  simp [readBytes]

/-- Reading back a slice of the packet that has just been stored. -/
theorem readBytes_store (mem : Nat → Nat) (pkt a b c : List Nat) (ptr n : Nat)
    (h : pkt = a ++ b ++ c) (hp : ptr = a.length) (hn : n = b.length) :
    readBytes (storePacket mem pkt) ptr n = b := by
  subst h hp hn
  apply List.ext_getElem
  · simp [readBytes]
  · intro i h1 h2
    simp only [readBytes, storePacket, List.getElem_map, List.getElem_range]
    rw [List.append_assoc, List.getD_append_right _ _ _ _ (by omega)]
    simp only [Nat.add_sub_cancel_left]
    rw [List.getD_append _ _ _ _ h2, List.getD_eq_getElem _ _ h2]

/-- A byte of the packet that has just been stored. -/
theorem store_at (mem : Nat → Nat) (pkt a c : List Nat) (b ptr : Nat)
    (h : pkt = a ++ b :: c) (hp : ptr = a.length) : storePacket mem pkt ptr = b := by
  subst h hp
  simp only [storePacket]
  rw [List.getD_append_right _ _ _ _ (le_refl _)]
  simp

/-- Reading past the packet that has been stored: the bytes of the packet, then
what the memory held before. -/
theorem readBytes_store_short (mem : Nat → Nat) (A G : List Nat) (n : Nat)
    (h : G.length ≤ n) :
    readBytes (storePacket mem (A ++ G)) A.length n =
      G ++ readBytes mem (A.length + G.length) (n - G.length) := by
  apply List.ext_getElem
  · simp [readBytes]; omega
  · intro i h1 h2
    simp only [readBytes, storePacket, List.getElem_map, List.getElem_range]
    rw [List.getD_append_right _ _ _ _ (by omega)]
    simp only [Nat.add_sub_cancel_left]
    by_cases hi : i < G.length
    · rw [List.getD_eq_getElem _ _ hi, List.getElem_append_left hi]
    · have hi2 : G.length ≤ i := by omega
      rw [List.getD_eq_default _ _ hi2, List.getElem_append_right hi2]
      simp only [List.getElem_map, List.getElem_range]
      congr 1
      omega

theorem llread_store_fits (size : Nat) (mem : Nat → Nat) (pkt : List Nat)
    (h : pkt.length ≤ size) : llread_store size mem pkt = some (storePacket mem pkt) := by
  simp [llread_store, h]

theorem llread_store_overrun (size : Nat) (mem : Nat → Nat) (pkt : List Nat)
    (h : size < pkt.length) : llread_store size mem pkt = none := by
  simp [llread_store, Nat.not_le.mpr h]

theorem readArray_in (size : Nat) (mem : Nat → Nat) (ptr n : Nat) (h : ptr + n ≤ size) :
    readArray size mem ptr n = some (readBytes mem ptr n) := by
  simp [readArray, h]

theorem readArray_out (size : Nat) (mem : Nat → Nat) (ptr n : Nat) (h : size < ptr + n) :
    readArray size mem ptr n = none := by
  simp [readArray, Nat.not_le.mpr h]

theorem high_byte (n : Nat) : ((n &&& 0xFF00) >>> 8) % 256 = n / 256 % 256 := by
  have h : (n &&& 0xFF00) >>> 8 = (n >>> 8) &&& 0xFF := by
    apply Nat.eq_of_testBit_eq
    intro i
    simp only [Nat.testBit_shiftRight, Nat.testBit_and]
    congr 1
    have h1 : (65280 : Nat) = 255 <<< 8 := by decide
    rw [h1, Nat.testBit_shiftLeft]
    simp
  rw [h, Nat.shiftRight_eq_div_pow]
  have := Nat.and_pow_two_sub_one_eq_mod (n / 2 ^ 8) 8
  simp at this ⊢
  rw [this]
  omega

theorem low_byte (n : Nat) : (n &&& 0xFF) % 256 = n % 256 := by
  have := Nat.and_pow_two_sub_one_eq_mod n 8
  simp at this ⊢
  rw [this]; omega

theorem join_bytes (h l : Nat) (hl : l < 256) : (h <<< 8) ||| l = h * 256 + l := by
  have := Nat.mul_add_lt_is_or (i := 8) (b := l) (by simpa using hl) h
  rw [Nat.shiftLeft_eq]
  simp at this
  rw [Nat.mul_comm h 256, ← this]

theorem MAX_PAYLOAD_SIZE_bounds (L : PacketH) (hL : L.WF) :
    0 < MAX_PAYLOAD_SIZE L ∧ MAX_PAYLOAD_SIZE L < 1000 := by
  have h1 := hL.sizeof_DATA_pos
  have h2 := hL.sizeof_DATA_le
  unfold MAX_PAYLOAD_SIZE
  omega

theorem MAX_PAYLOAD_SIZE_le (L : PacketH) : MAX_PAYLOAD_SIZE L ≤ 997 := by
  unfold MAX_PAYLOAD_SIZE
  omega

/-! ## Data packets -/

/-- The bytes of a Data packet on the wire. -/
theorem send_data_packet_wire (L : PacketH) (s : Nat) (F : List Nat) (r : Int) :
    send_data_packet L s F F.length r =
      ((leBytes L.sizeof_packet_type L.DATA ++
          [s % 256, F.length % 65536 / 256 % 256, F.length % 65536 % 256] ++ F, r),
        (s + 1) % 256) := by
  simp [send_data_packet, fill_data_packet_header, send_packet, bv_push, high_byte, low_byte]

/-- The packet type the receiver reads off a stored packet. -/
theorem packet_type_store (n v : Nat) (hv : v < 256 ^ n) (mem : Nat → Nat) (rest : List Nat) :
    leVal (readBytes (storePacket mem (leBytes n v ++ rest)) 0 n) = v := by
  rw [readBytes_store mem _ [] (leBytes n v) rest 0 n (by simp) rfl (length_leBytes n v).symm]
  exact leVal_leBytes n v hv

/-- The bytes of a Data packet whose fragment fits the payload. -/
theorem data_wire (L : PacketH) (hL : L.WF) (s : Nat) (hs : s < 256) (F : List Nat)
    (hF : F.length ≤ MAX_PAYLOAD_SIZE L) (r : Int) :
    (send_data_packet L s F F.length r).1.1 =
      leBytes L.sizeof_packet_type L.DATA ++ [s, F.length / 256, F.length % 256] ++ F := by
  have h1 := hL.sizeof_DATA_pos
  have h2 : F.length < 1000 := by unfold MAX_PAYLOAD_SIZE at hF; omega
  rw [send_data_packet_wire]
  have e1 : s % 256 = s := Nat.mod_eq_of_lt hs
  have e2 : F.length % 65536 / 256 % 256 = F.length / 256 := by omega
  have e3 : F.length % 65536 % 256 = F.length % 256 := by omega
  simp only [e1, e2, e3]

/-- The DATA branch on a stored packet with the header `s, h, l` that holds the
bytes `G` behind it, when the `h * 256 + l` bytes it declares lie in the array:
the bytes passed to `write` are `G`, as far as the declared length goes, and
then what the array held behind `G` before. -/
theorem dataBranch_store (L : PacketH) (mem : Nat → Nat) (T G : List Nat) (s h l : Nat)
    (hs : s < 256) (hh : h < 256) (hl : l < 256)
    (hfit : T.length + 3 + (h * 256 + l) ≤ MAX_PAYLOAD_SIZE L) :
    dataBranch L (storePacket mem (T ++ [s, h, l] ++ G)) T.length =
      some { sequence_number := s, fragment_size := h * 256 + l,
             bytes := readBytes (storePacket mem (T ++ [s, h, l] ++ G)) (T.length + 3)
               (h * 256 + l) } := by
  have e1 : storePacket mem (T ++ [s, h, l] ++ G) T.length = s :=
    store_at mem _ T ([h, l] ++ G) s _ (by simp) rfl
  have e2 : storePacket mem (T ++ [s, h, l] ++ G) (T.length + 1) = h :=
    store_at mem _ (T ++ [s]) ([l] ++ G) h _ (by simp) (by simp)
  have e3 : storePacket mem (T ++ [s, h, l] ++ G) (T.length + 1 + 1) = l :=
    store_at mem _ (T ++ [s, h]) G l _ (by simp) (by simp)
  have e4 : (h * 256 + l) % 65536 = h * 256 + l := by omega
  have c1 : T.length + 3 ≤ MAX_PAYLOAD_SIZE L := by omega
  have e5 := readArray_in (MAX_PAYLOAD_SIZE L) (storePacket mem (T ++ [s, h, l] ++ G))
    (T.length + 1 + 1 + 1) (h * 256 + l) (by omega)
  simp only [dataBranch, c1, if_true, e1, e2, e3, Nat.mod_eq_of_lt hs, Nat.mod_eq_of_lt hh,
    Nat.mod_eq_of_lt hl, join_bytes h l hl, e4, e5]

/-- The DATA branch when the bytes the header declares do not all lie in the
array. -/
theorem dataBranch_overrun (L : PacketH) (mem : Nat → Nat) (T G : List Nat) (s h l : Nat)
    (hh : h < 256) (hl : l < 256)
    (hfit : MAX_PAYLOAD_SIZE L < T.length + 3 + (h * 256 + l)) :
    dataBranch L (storePacket mem (T ++ [s, h, l] ++ G)) T.length = none := by
  by_cases c1 : T.length + 3 ≤ MAX_PAYLOAD_SIZE L
  · have e1 : storePacket mem (T ++ [s, h, l] ++ G) T.length = s :=
      store_at mem _ T ([h, l] ++ G) s _ (by simp) rfl
    have e2 : storePacket mem (T ++ [s, h, l] ++ G) (T.length + 1) = h :=
      store_at mem _ (T ++ [s]) ([l] ++ G) h _ (by simp) (by simp)
    have e3 : storePacket mem (T ++ [s, h, l] ++ G) (T.length + 1 + 1) = l :=
      store_at mem _ (T ++ [s, h]) G l _ (by simp) (by simp)
    have e4 : (h * 256 + l) % 65536 = h * 256 + l := by omega
    have e5 := readArray_out (MAX_PAYLOAD_SIZE L) (storePacket mem (T ++ [s, h, l] ++ G))
      (T.length + 1 + 1 + 1) (h * 256 + l) (by omega)
    simp only [dataBranch, c1, if_true, e2, e3, Nat.mod_eq_of_lt hh,
      Nat.mod_eq_of_lt hl, join_bytes h l hl, e4, e5]
  · simp only [dataBranch, c1, if_false]

/-- One iteration of the receiver loop on a packet of type DATA with the header
`s, h, l` and the bytes `G` behind it: an overrun when the packet does not fit
the array or the bytes its header declares do not all lie in it, and otherwise
the `write` of the declared number of bytes. -/
theorem rxLoop_data_gen (L : PacketH) (hL : L.WF) (st : RxState) (it : RxIter)
    (rest : List RxIter) (s h l : Nat) (hs : s < 256) (hh : h < 256) (hl : l < 256)
    (G : List Nat)
    (hit : it.llread = some (leBytes L.sizeof_packet_type L.DATA ++ [s, h, l] ++ G)) :
    rxLoop L st (it :: rest) =
      (let pkt := leBytes L.sizeof_packet_type L.DATA ++ [s, h, l] ++ G
       let st1 : RxState := { st with packet_data := (storePacket st.packet_data pkt) }
       if MAX_PAYLOAD_SIZE L < L.sizeof_packet_type + 3 + G.length then
         ([], st, Outcome.overrun)
       else if MAX_PAYLOAD_SIZE L < L.sizeof_packet_type + 3 + (h * 256 + l) then
         ([], st1, Outcome.overrun)
       else
         let bytes_written := it.write_ret (h * 256 + l)
         let w := Event.write st.fd
           (readBytes st1.packet_data (L.sizeof_packet_type + 3) (h * 256 + l)) bytes_written
         if bytes_written = -1 then ([w, Event.exit (-1)], st1, Outcome.exited)
         else if bytes_written ≠ 0 then
           let total := (((st.total_bytes_written : Int) + bytes_written) % 2 ^ 64).toNat
           let st2 : RxState := { st1 with total_bytes_written := total }
           let t := rxLoop L st2 rest
           (w :: Event.info (progress total st.file_size) :: t.1, t.2)
         else
           let t := rxLoop L st1 rest
           (w :: t.1, t.2)) := by
  have hlen : (leBytes L.sizeof_packet_type L.DATA ++ [s, h, l] ++ G).length =
      L.sizeof_packet_type + 3 + G.length := by simp [length_leBytes]; omega
  simp only
  by_cases c1 : MAX_PAYLOAD_SIZE L < L.sizeof_packet_type + 3 + G.length
  · rw [rxLoop, hit]
    simp only [llread_store_overrun _ _ _ (hlen ▸ c1), if_pos c1]
  · have hst := llread_store_fits (MAX_PAYLOAD_SIZE L) st.packet_data
      (leBytes L.sizeof_packet_type L.DATA ++ [s, h, l] ++ G) (by rw [hlen]; omega)
    have hty := readArray_in (MAX_PAYLOAD_SIZE L)
      (storePacket st.packet_data (leBytes L.sizeof_packet_type L.DATA ++ [s, h, l] ++ G)) 0
      L.sizeof_packet_type (by omega)
    have ht : leVal (readBytes (storePacket st.packet_data
        (leBytes L.sizeof_packet_type L.DATA ++ [s, h, l] ++ G)) 0
        L.sizeof_packet_type) = L.DATA := by
      rw [List.append_assoc]
      exact packet_type_store _ _ hL.data_lt _ _
    rw [rxLoop, hit]
    simp only [hst, hty, ht, Nat.zero_add, if_neg hL.data_ne_end,
      if_neg (Ne.symm hL.start_ne_data), if_true, if_neg c1]
    by_cases c2 : MAX_PAYLOAD_SIZE L < L.sizeof_packet_type + 3 + (h * 256 + l)
    · have hd := dataBranch_overrun L st.packet_data (leBytes L.sizeof_packet_type L.DATA) G
        s h l hh hl (by rw [length_leBytes]; exact c2)
      rw [length_leBytes] at hd
      simp only [hd, if_pos c2]
    · have hd := dataBranch_store L st.packet_data (leBytes L.sizeof_packet_type L.DATA) G
        s h l hs hh hl (by rw [length_leBytes]; omega)
      rw [length_leBytes] at hd
      simp only [hd, if_neg c2]

/-- One iteration of the receiver loop on a Data packet that holds the bytes it
declares. -/
theorem rxLoop_data (L : PacketH) (hL : L.WF) (st : RxState) (it : RxIter) (rest : List RxIter)
    (s : Nat) (hs : s < 256) (F : List Nat) (hF : F.length < 65536)
    (hit : it.llread =
      some (leBytes L.sizeof_packet_type L.DATA ++ [s, F.length / 256, F.length % 256] ++ F)) :
    rxLoop L st (it :: rest) =
      (let st1 : RxState := { st with packet_data := (storePacket st.packet_data
          (leBytes L.sizeof_packet_type L.DATA ++ [s, F.length / 256, F.length % 256] ++ F)) }
       if MAX_PAYLOAD_SIZE L < L.sizeof_packet_type + 3 + F.length then
         ([], st, Outcome.overrun)
       else
         let bytes_written := it.write_ret F.length
         let w := Event.write st.fd F bytes_written
         if bytes_written = -1 then ([w, Event.exit (-1)], st1, Outcome.exited)
         else if bytes_written ≠ 0 then
           let total := (((st.total_bytes_written : Int) + bytes_written) % 2 ^ 64).toNat
           let st2 : RxState := { st1 with total_bytes_written := total }
           let t := rxLoop L st2 rest
           (w :: Event.info (progress total st.file_size) :: t.1, t.2)
         else
           let t := rxLoop L st1 rest
           (w :: t.1, t.2)) := by
  have hn : F.length / 256 * 256 + F.length % 256 = F.length := by omega
  have hb : readBytes (storePacket st.packet_data
      (leBytes L.sizeof_packet_type L.DATA ++ [s, F.length / 256, F.length % 256] ++ F))
      (L.sizeof_packet_type + 3) F.length = F :=
    readBytes_store _ _ (leBytes L.sizeof_packet_type L.DATA ++
      [s, F.length / 256, F.length % 256]) F [] _ _ (by simp) (by simp [length_leBytes]) rfl
  rw [rxLoop_data_gen L hL st it rest s (F.length / 256) (F.length % 256) hs (by omega)
    (by omega) F hit]
  simp only [hn, hb]
  split_ifs <;> rfl

/-- The sender half and the receiver half of the Data packet round trip, for a
fragment whose packet fits the array `packet_data`. -/
theorem data_packet_round_trip_fits (L : PacketH) (hL : L.WF) (s : Nat) (hs : s < 256)
    (F : List Nat) (hF : L.sizeof_packet_type + 3 + F.length ≤ MAX_PAYLOAD_SIZE L) (r : Int)
    (st : RxState) (open_ret : Int) (write_ret : Nat → Int) (rest : List RxIter) :
    (send_data_packet L s F F.length r).1.1 =
        leBytes L.sizeof_packet_type L.DATA ++ [s, F.length / 256, F.length % 256] ++ F ∧
      dataBranch L (storePacket st.packet_data (send_data_packet L s F F.length r).1.1)
          L.sizeof_packet_type =
        some { sequence_number := s, fragment_size := F.length, bytes := F } ∧
      (rxLoop L st (RxIter.mk (some (send_data_packet L s F F.length r).1.1)
          open_ret write_ret :: rest)).1.head? =
        some (Event.write st.fd F (write_ret F.length)) := by
  have hm := MAX_PAYLOAD_SIZE_le L
  have hw := data_wire L hL s hs F (by omega) r
  have hn : F.length / 256 * 256 + F.length % 256 = F.length := by omega
  rw [hw]
  refine ⟨rfl, ?_, ?_⟩
  · have hd := dataBranch_store L st.packet_data (leBytes L.sizeof_packet_type L.DATA) F
      s (F.length / 256) (F.length % 256) hs (by omega) (by omega)
      (by rw [length_leBytes]; omega)
    rw [length_leBytes] at hd
    rw [hd, hn]
    have hb : readBytes (storePacket st.packet_data
        (leBytes L.sizeof_packet_type L.DATA ++ [s, F.length / 256, F.length % 256] ++ F))
        (L.sizeof_packet_type + 3) F.length = F :=
      readBytes_store _ _ (leBytes L.sizeof_packet_type L.DATA ++
        [s, F.length / 256, F.length % 256]) F [] _ _ (by simp) (by simp [length_leBytes]) rfl
    rw [hb]
  · rw [rxLoop_data L hL st _ rest s hs F (by omega) rfl]
    have c : ¬ MAX_PAYLOAD_SIZE L < L.sizeof_packet_type + 3 + F.length := by omega
    simp only [if_neg c]
    split_ifs <;> rfl

/-- The receiver loop on a Data packet that does not fit the array: `llread`
overruns `packet_data`, nothing is written. -/
theorem rxLoop_data_overrun (L : PacketH) (hL : L.WF) (st : RxState) (it : RxIter)
    (rest : List RxIter) (s : Nat) (F : List Nat)
    (hF : F.length ≤ MAX_PAYLOAD_SIZE L)
    (hbig : MAX_PAYLOAD_SIZE L < L.sizeof_packet_type + 3 + F.length)
    (hit : it.llread = some (dataWire L s F)) :
    rxLoop L st (it :: rest) = ([], st, Outcome.overrun) := by
  have hm := MAX_PAYLOAD_SIZE_le L
  rw [rxLoop_data L hL st it rest (s % 256) (Nat.mod_lt _ (by norm_num)) F (by omega) hit]
  simp only [if_pos hbig]

/-! ## Control packets -/

theorem takeWhile_cstring (N junk : List Nat) (hN : ∀ c ∈ N, c ≠ 0) :
    (N ++ 0 :: junk).takeWhile (fun c => c ≠ 0) = N := by
  induction N with
  | nil => simp
  | cons a N ih =>
    have ha : a ≠ 0 := hN a (by simp)
    have ih2 := ih (fun c hc => hN c (by simp [hc]))
    simp only [List.cons_append, List.takeWhile, ha, ne_eq, not_false_eq_true, decide_True]
    exact congrArg _ ih2

theorem strlen_cstring (N junk : List Nat) (hN : ∀ c ∈ N, c ≠ 0) :
    strlen (N ++ 0 :: junk) = N.length := by
  rw [strlen, takeWhile_cstring N junk hN]

/-- The bytes of a Start packet on the wire. -/
theorem send_start_wire (L : PacketH) (S : Nat) (N junk : List Nat) (hN : ∀ c ∈ N, c ≠ 0)
    (r : Int) :
    send_control_packet L L.START S (N ++ 0 :: junk) r = (startWire L S N, r) := by
  simp [send_control_packet, send_packet, create_control_packet, bv_push, startWire,
    strlen_cstring N junk hN, sizeof_size_t]

/-- The bytes of an End packet on the wire. -/
theorem send_end_wire (L : PacketH) (hL : L.WF) (S : Nat) (name : List Nat) (r : Int) :
    send_control_packet L L.END S name r = (endWire L, r) := by
  simp [send_control_packet, send_packet, create_control_packet, endWire,
    Ne.symm hL.start_ne_end]

theorem takeWhile_no_nul (N : List Nat) (hN : ∀ c ∈ N, c ≠ 0) :
    N.takeWhile (fun c => c ≠ 0) = N := by
  rw [List.takeWhile_eq_self_iff]
  intro c hc
  simpa using hN c hc

theorem length_startWire (L : PacketH) (S : Nat) (N : List Nat) :
    (startWire L S N).length =
      L.sizeof_packet_type + L.sizeof_field_type + 8 + 8 + L.sizeof_field_type + 8 +
        N.length := by
  simp [startWire, length_leBytes]
  omega

/-- The call of `sprintf` on a name without a NUL byte that lies in the array. -/
theorem sprintf_test_name (size : Nat) (mem : Nat → Nat) (ptr : Nat) (N : List Nat)
    (hN : ∀ c ∈ N, c ≠ 0) (hsize : size < 2 ^ 31) (hin : ptr + N.length ≤ size)
    (hmem : readBytes mem ptr N.length = N) :
    sprintf_test size mem ptr N.length = some (N ++ [95, 116, 101, 115, 116]) := by
  have h1 : N.length % 2 ^ 32 = N.length := Nat.mod_eq_of_lt (by omega)
  have h2 : N.length < 2 ^ 31 := by omega
  have h3 : min N.length (size - ptr) = N.length := by omega
  have h4 : (N.length + 5 + 1) % 2 ^ 64 = N.length + 5 + 1 := Nat.mod_eq_of_lt (by omega)
  simp only [sprintf_test, h1, h2, decide_True, if_true, h3, hmem, takeWhile_no_nul N hN, hin,
    h4, le_refl, Bool.or_true, Bool.and_true, Bool.true_and]

/-- The START branch on a stored Start packet that fits the array. -/
theorem startBranch_store (L : PacketH) (S : Nat) (hS : S < 2 ^ 64) (N : List Nat)
    (hN : ∀ c ∈ N, c ≠ 0) (hfit : (startWire L S N).length ≤ MAX_PAYLOAD_SIZE L)
    (mem : Nat → Nat) :
    startBranch L (storePacket mem (startWire L S N)) L.sizeof_packet_type =
      some { file_size := S, filename_length := N.length,
             name_ptr :=
               L.sizeof_packet_type + L.sizeof_field_type + 8 + 8 + L.sizeof_field_type + 8,
             file_name := N ++ [95, 116, 101, 115, 116] } := by
  have hm := MAX_PAYLOAD_SIZE_le L
  rw [length_startWire] at hfit
  have e1 : readBytes (storePacket mem (startWire L S N))
      (L.sizeof_packet_type + L.sizeof_field_type + 8) 8 = leBytes 8 S :=
    readBytes_store mem _
      (leBytes L.sizeof_packet_type L.START ++ leBytes L.sizeof_field_type L.FILE_SIZE ++
        leBytes 8 8)
      (leBytes 8 S) (leBytes L.sizeof_field_type L.FILE_NAME ++ leBytes 8 N.length ++ N) _ _
      (by simp [startWire]) (by simp [length_leBytes]; omega) (by simp [length_leBytes])
  have e2 : readBytes (storePacket mem (startWire L S N))
      (L.sizeof_packet_type + L.sizeof_field_type + 8 + 8 + L.sizeof_field_type) 8 =
      leBytes 8 N.length :=
    readBytes_store mem _
      (leBytes L.sizeof_packet_type L.START ++ leBytes L.sizeof_field_type L.FILE_SIZE ++
        leBytes 8 8 ++ leBytes 8 S ++ leBytes L.sizeof_field_type L.FILE_NAME)
      (leBytes 8 N.length) N _ _
      (by simp [startWire]) (by simp [length_leBytes]; omega) (by simp [length_leBytes])
  have e3 : readBytes (storePacket mem (startWire L S N))
      (L.sizeof_packet_type + L.sizeof_field_type + 8 + 8 + L.sizeof_field_type + 8) N.length =
      N :=
    readBytes_store mem _
      (leBytes L.sizeof_packet_type L.START ++ leBytes L.sizeof_field_type L.FILE_SIZE ++
        leBytes 8 8 ++ leBytes 8 S ++ leBytes L.sizeof_field_type L.FILE_NAME ++
        leBytes 8 N.length)
      N [] _ _
      (by simp [startWire]) (by simp [length_leBytes]; omega) rfl
  have v1 : leVal (leBytes 8 S) = S := leVal_leBytes 8 S (by norm_num; exact hS)
  have v2 : leVal (leBytes 8 N.length) = N.length :=
    leVal_leBytes 8 N.length (by norm_num; omega)
  have a1 := readArray_in (MAX_PAYLOAD_SIZE L) (storePacket mem (startWire L S N))
    (L.sizeof_packet_type + L.sizeof_field_type + 8) 8 (by omega)
  have a2 := readArray_in (MAX_PAYLOAD_SIZE L) (storePacket mem (startWire L S N))
    (L.sizeof_packet_type + L.sizeof_field_type + 8 + 8 + L.sizeof_field_type) 8 (by omega)
  have a3 := sprintf_test_name (MAX_PAYLOAD_SIZE L) (storePacket mem (startWire L S N))
    (L.sizeof_packet_type + L.sizeof_field_type + 8 + 8 + L.sizeof_field_type + 8) N hN
    (by omega) (by omega) e3
  simp only [startBranch, sizeof_size_t, a1, a2, e1, e2, v1, v2, a3]

/-- One iteration of the receiver loop on a Start packet: an overrun when the
packet does not fit the array, and otherwise the `open` of the file named after
the name in the packet. -/
theorem rxLoop_start (L : PacketH) (hL : L.WF) (st : RxState) (it : RxIter) (rest : List RxIter)
    (S : Nat) (hS : S < 2 ^ 64) (N : List Nat) (hN : ∀ c ∈ N, c ≠ 0)
    (hit : it.llread = some (startWire L S N)) :
    rxLoop L st (it :: rest) =
      (let st1 : RxState := { st with
          packet_data := (storePacket st.packet_data (startWire L S N)),
          file_size := S, fd := it.open_ret }
       if MAX_PAYLOAD_SIZE L < (startWire L S N).length then ([], st, Outcome.overrun)
       else if it.open_ret = -1 then
         ([Event.open_file (N ++ [95, 116, 101, 115, 116]) it.open_ret, Event.exit (-1)],
           st1, Outcome.exited)
       else
         let t := rxLoop L st1 rest
         (Event.open_file (N ++ [95, 116, 101, 115, 116]) it.open_ret :: t.1, t.2)) := by
  simp only
  by_cases c1 : MAX_PAYLOAD_SIZE L < (startWire L S N).length
  · rw [rxLoop, hit]
    simp only [llread_store_overrun _ _ _ c1, if_pos c1]
  · have hfit : (startWire L S N).length ≤ MAX_PAYLOAD_SIZE L := by omega
    have hst := llread_store_fits (MAX_PAYLOAD_SIZE L) st.packet_data (startWire L S N) hfit
    have hl := length_startWire L S N
    have hty := readArray_in (MAX_PAYLOAD_SIZE L)
      (storePacket st.packet_data (startWire L S N)) 0 L.sizeof_packet_type (by omega)
    have ht : leVal (readBytes (storePacket st.packet_data (startWire L S N)) 0
        L.sizeof_packet_type) = L.START := by
      rw [startWire, List.append_assoc]
      exact packet_type_store _ _ hL.start_lt _ _
    have hb := startBranch_store L S hS N hN hfit st.packet_data
    rw [rxLoop, hit]
    simp only [hst, hty, ht, Nat.zero_add, hb, if_neg hL.start_ne_end, if_true, if_neg c1]

/-- The bytes of a packet `send_control_packet` sends with the type START begin
with that type. -/
theorem send_start_type (L : PacketH) (S : Nat) (filename : List Nat) (r : Int) :
    ∃ info, (send_control_packet L L.START S filename r).1 =
      leBytes L.sizeof_packet_type L.START ++ info := by
  refine ⟨(create_control_packet L L.START S filename).information.getD [], ?_⟩
  simp [send_control_packet, send_packet, create_control_packet, bv_push]

/-- One iteration of the receiver loop on any packet of type START: an overrun
with nothing done, or the `open` of a file. -/
theorem rxLoop_start_any (L : PacketH) (hL : L.WF) (st : RxState) (it : RxIter)
    (rest : List RxIter) (info : List Nat)
    (hit : it.llread = some (leBytes L.sizeof_packet_type L.START ++ info)) :
    ∃ (name : List Nat) (st1 : RxState),
      rxLoop L st (it :: rest) = ([], st1, Outcome.overrun) ∨
      (st1.fd = it.open_ret ∧
        rxLoop L st (it :: rest) =
          (if it.open_ret = -1 then
            ([Event.open_file name it.open_ret, Event.exit (-1)], st1, Outcome.exited)
          else
            (Event.open_file name it.open_ret :: (rxLoop L st1 rest).1,
              (rxLoop L st1 rest).2))) := by
  cases h1 : llread_store (MAX_PAYLOAD_SIZE L) st.packet_data
      (leBytes L.sizeof_packet_type L.START ++ info) with
  | none =>
    refine ⟨[], st, Or.inl ?_⟩
    rw [rxLoop, hit]
    simp only [h1]
  | some stored =>
    have hs : stored = storePacket st.packet_data
        (leBytes L.sizeof_packet_type L.START ++ info) := by
      unfold llread_store at h1
      split_ifs at h1
      exact (Option.some.inj h1).symm
    cases h2 : readArray (MAX_PAYLOAD_SIZE L) stored 0 L.sizeof_packet_type with
    | none =>
      refine ⟨[], RxState.mk stored st.fd st.file_size st.total_bytes_written, Or.inl ?_⟩
      rw [rxLoop, hit]
      simp only [h1, h2]
    | some tb =>
      have htb : leVal tb = L.START := by
        unfold readArray at h2
        split_ifs at h2
        rw [← Option.some.inj h2, hs]
        exact packet_type_store _ _ hL.start_lt _ _
      cases h3 : startBranch L stored (0 + L.sizeof_packet_type) with
      | none =>
        refine ⟨[], RxState.mk stored st.fd st.file_size st.total_bytes_written, Or.inl ?_⟩
        rw [rxLoop, hit]
        simp only [h1, h2, htb, if_neg hL.start_ne_end, if_true, h3]
      | some f =>
        refine ⟨f.file_name,
          RxState.mk stored it.open_ret f.file_size st.total_bytes_written, Or.inr ⟨rfl, ?_⟩⟩
        rw [rxLoop, hit]
        simp only [h1, h2, htb, if_neg hL.start_ne_end, if_true, h3]

/-- One iteration of the receiver loop on an End packet. -/
theorem rxLoop_end (L : PacketH) (hL : L.WF) (st : RxState) (it : RxIter) (rest : List RxIter)
    (hit : it.llread = some (endWire L)) :
    rxLoop L st (it :: rest) =
      (if MAX_PAYLOAD_SIZE L < L.sizeof_packet_type then ([], st, Outcome.overrun)
       else ([], { st with packet_data := (storePacket st.packet_data (endWire L)) },
        Outcome.returned)) := by
  have hl : (endWire L).length = L.sizeof_packet_type := length_leBytes _ _
  by_cases c1 : MAX_PAYLOAD_SIZE L < L.sizeof_packet_type
  · rw [rxLoop, hit]
    simp only [llread_store_overrun _ _ _ (hl ▸ c1), if_pos c1]
  · have hst := llread_store_fits (MAX_PAYLOAD_SIZE L) st.packet_data (endWire L)
      (by rw [hl]; omega)
    have hty := readArray_in (MAX_PAYLOAD_SIZE L) (storePacket st.packet_data (endWire L)) 0
      L.sizeof_packet_type (by omega)
    have ht : leVal (readBytes (storePacket st.packet_data (endWire L)) 0
        L.sizeof_packet_type) = L.END := by
      have := packet_type_store _ _ hL.end_lt st.packet_data []
      rwa [List.append_nil] at this
    rw [rxLoop, hit]
    simp only [hst, hty, ht, if_true, if_neg c1]

/-! ## The sequence number -/

theorem send_data_calls_get (L : PacketH) (calls : List (List Nat × Int)) :
    ∀ (seq k : Nat) (buf : List Nat) (r : Int), calls[k]? = some (buf, r) →
      (send_data_calls L seq calls).1[k]? =
        some (leBytes L.sizeof_packet_type L.DATA ++
          [(seq + k) % 256, buf.length % 65536 / 256 % 256, buf.length % 65536 % 256] ++ buf,
          r) := by
  induction calls with
  | nil => intro seq k buf r h; simp at h
  | cons c calls ih =>
    intro seq k buf r h
    obtain ⟨b, w⟩ := c
    cases k with
    | zero =>
      simp only [List.getElem?_cons_zero, Option.some.injEq, Prod.mk.injEq] at h
      obtain ⟨hb, hw⟩ := h
      subst hb hw
      simp [send_data_calls, send_data_packet_wire]
    | succ k =>
      simp only [List.getElem?_cons_succ] at h
      have := ih ((seq + 1) % 256) k buf r h
      simp only [send_data_calls, send_data_packet_wire, List.getElem?_cons_succ, this]
      have e : ((seq + 1) % 256 + k) % 256 = (seq + (k + 1)) % 256 := by omega
      rw [e]

theorem send_data_calls_counter (L : PacketH) (calls : List (List Nat × Int)) :
    ∀ seq : Nat, seq < 256 →
      (send_data_calls L seq calls).2 = (seq + calls.length) % 256 := by
  induction calls with
  | nil => intro seq h; simp [send_data_calls, Nat.mod_eq_of_lt h]
  | cons c calls ih =>
    intro seq h
    obtain ⟨b, w⟩ := c
    simp only [send_data_calls, send_data_packet_wire, List.length_cons]
    rw [ih ((seq + 1) % 256) (Nat.mod_lt _ (by norm_num))]
    omega

theorem send_data_calls_number (L : PacketH) (calls : List (List Nat × Int)) :
    ∀ (seq k : Nat) (p : List Nat × Int), (send_data_calls L seq calls).1[k]? = some p →
      wireSequenceNumber L p.1 = (seq + k) % 256 := by
  induction calls with
  | nil => intro seq k p h; simp [send_data_calls] at h
  | cons c calls ih =>
    intro seq k p h
    obtain ⟨b, w⟩ := c
    cases k with
    | zero =>
      simp only [send_data_calls, send_data_packet_wire, List.getElem?_cons_zero,
        Option.some.injEq] at h
      rw [← h]
      simp only [wireSequenceNumber, List.append_assoc]
      rw [List.getD_append_right _ _ _ _ (by rw [length_leBytes]), length_leBytes]
      simp
    | succ k =>
      simp only [send_data_calls, send_data_packet_wire, List.getElem?_cons_succ] at h
      rw [ih ((seq + 1) % 256) k p h]
      omega

/-- C6. In a session of calls to `send_data_packet` that starts with the static
counter at 0, the `k`-th call (from 0) hands `llwrite` a Data packet whose
header carries the sequence number `k mod 256`, whatever the buffers and
whatever the results of the sends; so the first packet carries 0, each next
one the number before plus 1 modulo 256, and the packet 256 places later the
same number. The counter advances on a failed send as on any other. -/
theorem sequence_numbering (L : PacketH) (calls : List (List Nat × Int)) :
    (∀ (k : Nat) (buf : List Nat) (r : Int), calls[k]? = some (buf, r) →
      (send_data_calls L 0 calls).1[k]? =
        some (leBytes L.sizeof_packet_type L.DATA ++
          [k % 256, buf.length % 65536 / 256 % 256, buf.length % 65536 % 256] ++ buf, r)) ∧
      (∀ (k : Nat) (p : List Nat × Int), (send_data_calls L 0 calls).1[k]? = some p →
        wireSequenceNumber L p.1 = k % 256) ∧
      (∀ p : List Nat × Int, (send_data_calls L 0 calls).1[0]? = some p →
        wireSequenceNumber L p.1 = 0) ∧
      (∀ (k : Nat) (p q : List Nat × Int), (send_data_calls L 0 calls).1[k]? = some p →
        (send_data_calls L 0 calls).1[k + 1]? = some q →
        wireSequenceNumber L q.1 = (wireSequenceNumber L p.1 + 1) % 256) ∧
      (∀ (k : Nat) (p q : List Nat × Int), (send_data_calls L 0 calls).1[k]? = some p →
        (send_data_calls L 0 calls).1[k + 256]? = some q →
        wireSequenceNumber L q.1 = wireSequenceNumber L p.1) ∧
      (send_data_calls L 0 calls).2 = calls.length % 256 ∧
      (∀ (s : Nat) (buf : List Nat) (len : Nat),
        (send_data_packet L s buf len (-1)).2 = (s + 1) % 256) := by
  have hn : ∀ (k : Nat) (p : List Nat × Int), (send_data_calls L 0 calls).1[k]? = some p →
      wireSequenceNumber L p.1 = k % 256 := by
    intro k p h
    have := send_data_calls_number L calls 0 k p h
    rwa [Nat.zero_add] at this
  refine ⟨?_, hn, ?_, ?_, ?_, ?_, ?_⟩
  · intro k buf r h
    have := send_data_calls_get L calls 0 k buf r h
    rwa [Nat.zero_add] at this
  · intro p h; exact hn 0 p h
  · intro k p q hp hq
    rw [hn k p hp, hn (k + 1) q hq]
    omega
  · intro k p q hp hq
    rw [hn k p hp, hn (k + 256) q hq]
    omega
  · have := send_data_calls_counter L calls 0 (by norm_num)
    rwa [Nat.zero_add] at this
  · intro s buf len; rfl

/-! ## The transmitter loop -/

theorem data_ne_end (L : PacketH) (seq : Nat) (bs : List Nat) (len : Nat) (r : Int) :
    (send_data_packet L seq bs len r).1.1 ≠ endWire L := by
  intro h
  have := congrArg List.length h
  simp [send_data_packet, fill_data_packet_header, send_packet, bv_push, endWire,
    length_leBytes] at this

/-- The loop on a `read` error. -/
theorem txLoop_read_error (L : PacketH) (seq : Nat) (it : TxIter) (rest : List TxIter)
    (h : sys_read it (MAX_PAYLOAD_SIZE L) = none) : txLoop L seq (it :: rest) = ([], seq, true) := by
  rw [txLoop, h]

/-- The loop at the end of the file. -/
theorem txLoop_eof (L : PacketH) (hL : L.WF) (seq : Nat) (it : TxIter) (rest : List TxIter)
    (h : sys_read it (MAX_PAYLOAD_SIZE L) = some []) :
    txLoop L seq (it :: rest) = ([Event.llwrite (endWire L) it.llwrite], seq, true) := by
  rw [txLoop, h]
  simp [send_end_wire L hL]

/-- The loop on a fragment whose send fails. -/
theorem txLoop_send_fails (L : PacketH) (seq : Nat) (it : TxIter) (rest : List TxIter)
    (bs : List Nat) (h : sys_read it (MAX_PAYLOAD_SIZE L) = some bs) (hbs : bs ≠ []) (hw : it.llwrite = -1) :
    txLoop L seq (it :: rest) =
      ([Event.llwrite (send_data_packet L seq bs bs.length it.llwrite).1.1 (-1)],
        (seq + 1) % 256, true) := by
  rw [txLoop, h]
  have : bs.length ≠ 0 := by simpa using hbs
  simp [this, send_data_packet, send_packet, hw]

/-- The loop on a fragment that is sent. -/
theorem txLoop_continues (L : PacketH) (seq : Nat) (it : TxIter) (rest : List TxIter)
    (bs : List Nat) (h : sys_read it (MAX_PAYLOAD_SIZE L) = some bs) (hbs : bs ≠ []) (hw : it.llwrite ≠ -1) :
    txLoop L seq (it :: rest) =
      (Event.llwrite (send_data_packet L seq bs bs.length it.llwrite).1.1 it.llwrite ::
        (txLoop L ((seq + 1) % 256) rest).1, (txLoop L ((seq + 1) % 256) rest).2) := by
  rw [txLoop, h]
  have : bs.length ≠ 0 := by simpa using hbs
  simp [this, send_data_packet, send_packet, hw]

theorem eofFirst_cons (L : PacketH) (it : TxIter) (rest : List TxIter) :
    eofFirst L (it :: rest) ↔ sys_read it (MAX_PAYLOAD_SIZE L) = some [] ∨ (it.continues L ∧ eofFirst L rest) := by
  constructor
  · rintro ⟨pre, j, post, h, hpre, hj⟩
    cases pre with
    | nil =>
      simp only [List.nil_append, List.cons.injEq] at h
      left; rw [h.1]; exact hj
    | cons p pre =>
      simp only [List.cons_append, List.cons.injEq] at h
      right
      refine ⟨?_, pre, j, post, h.2, fun x hx => hpre x (by simp [hx]), hj⟩
      rw [h.1]; exact hpre p (by simp)
  · rintro (h | ⟨hc, pre, j, post, h, hpre, hj⟩)
    · exact ⟨[], it, rest, rfl, by simp, h⟩
    · refine ⟨it :: pre, j, post, by simp [h], ?_, hj⟩
      intro x hx
      simp only [List.mem_cons] at hx
      rcases hx with rfl | hx
      · exact hc
      · exact hpre x hx

/-- Every run of the loop: the End packet is among the packets sent exactly
when the end of the file comes first, and then it comes once, last, and the
loop is left. -/
theorem txLoop_end (L : PacketH) (hL : L.WF) (iters : List TxIter) :
    ∀ seq : Nat,
      (endWire L ∈ sentPackets (txLoop L seq iters).1 ↔ eofFirst L iters) ∧
      (eofFirst L iters → (txLoop L seq iters).2.2 = true ∧
        ∃ ds, sentPackets (txLoop L seq iters).1 = ds ++ [endWire L] ∧ endWire L ∉ ds) := by
  induction iters with
  | nil =>
    intro seq
    have : ¬ eofFirst L [] := by
      rintro ⟨pre, j, post, h, _⟩
      simp at h
    simp [txLoop, sentPackets, this]
  | cons it rest ih =>
    intro seq
    rw [eofFirst_cons]
    cases hr : sys_read it (MAX_PAYLOAD_SIZE L) with
    | none =>
      have hc : ¬ it.continues L := by
        rintro ⟨bs, h, _⟩; rw [hr] at h; cases h
      rw [txLoop_read_error L seq it rest hr]
      simp [sentPackets, hc]
    | some bs =>
      by_cases hbs : bs = []
      · subst hbs
        rw [txLoop_eof L hL seq it rest hr]
        simp only [sentPackets, List.mem_singleton, true_or, forall_const, true_and]
        exact ⟨[], rfl, by simp⟩
      · have hne : some bs ≠ some [] := by simpa using hbs
        by_cases hw : it.llwrite = -1
        · have hc : ¬ it.continues L := by
            rintro ⟨_, _, _, h⟩; exact h hw
          rw [txLoop_send_fails L seq it rest bs hr hbs hw]
          have hd : ¬ endWire L = (send_data_packet L seq bs bs.length it.llwrite).1.1 :=
            fun h => data_ne_end L seq bs bs.length it.llwrite h.symm
          simp [sentPackets, hc, hne, hd]
        · have hc : it.continues L := ⟨bs, hr, hbs, hw⟩
          rw [txLoop_continues L seq it rest bs hr hbs hw]
          obtain ⟨ih1, ih2⟩ := ih ((seq + 1) % 256)
          simp only [sentPackets, List.mem_cons, hne, hc, true_and, false_or]
          constructor
          · rw [← ih1]
            constructor
            · rintro (h | h)
              · exact absurd h.symm (data_ne_end L seq bs bs.length it.llwrite)
              · exact h
            · intro h; exact Or.inr h
          · intro h
            obtain ⟨h1, ds, h2, h3⟩ := ih2 h
            refine ⟨h1, (send_data_packet L seq bs bs.length it.llwrite).1.1 :: ds, ?_, ?_⟩
            · rw [h2]; rfl
            · simp only [List.mem_cons, not_or]
              exact ⟨fun h => data_ne_end L seq bs bs.length it.llwrite h.symm, h3⟩

/-- The loop through iterations that all go on. -/
theorem txLoop_append (L : PacketH) (pre rest : List TxIter) (hpre : ∀ j ∈ pre, j.continues L) :
    ∀ seq : Nat,
      (txLoop L seq (pre ++ rest)).1 =
          (txLoop L seq pre).1 ++ (txLoop L (txLoop L seq pre).2.1 rest).1 ∧
        (txLoop L seq (pre ++ rest)).2 = (txLoop L (txLoop L seq pre).2.1 rest).2 := by
  induction pre with
  | nil => intro seq; simp [txLoop]
  | cons it pre ih =>
    intro seq
    obtain ⟨bs, hr, hbs, hw⟩ := hpre it (by simp)
    have ih2 := ih (fun j hj => hpre j (by simp [hj])) ((seq + 1) % 256)
    rw [List.cons_append, txLoop_continues L seq it _ bs hr hbs hw,
      txLoop_continues L seq it _ bs hr hbs hw]
    simp only [List.cons_append, ih2.1, ih2.2, and_self]

/-- C10. In every run of the transmitter loop: an End packet is sent exactly when
a `read` returns 0 before any `read` error and before any failed send of a Data
packet; it is then sent once, as the last packet, and the loop is left whatever
the result of that send; and after a `read` error or a failed send of a Data
packet the loop is left with nothing sent that the iterations before did not
send, the failed Data packet apart. -/
theorem end_packet_discipline (L : PacketH) (hL : L.WF) (seq : Nat) (iters : List TxIter) :
    (endWire L ∈ sentPackets (txLoop L seq iters).1 ↔ eofFirst L iters) ∧
      (eofFirst L iters → (txLoop L seq iters).2.2 = true ∧
        ∃ ds, sentPackets (txLoop L seq iters).1 = ds ++ [endWire L] ∧ endWire L ∉ ds) ∧
      (∀ (pre post : List TxIter) (it : TxIter), iters = pre ++ it :: post →
        (∀ j ∈ pre, j.continues L) → sys_read it (MAX_PAYLOAD_SIZE L) = none →
        (txLoop L seq iters).2.2 = true ∧
          sentPackets (txLoop L seq iters).1 = sentPackets (txLoop L seq pre).1 ∧
          endWire L ∉ sentPackets (txLoop L seq iters).1) ∧
      (∀ (pre post : List TxIter) (it : TxIter) (bs : List Nat), iters = pre ++ it :: post →
        (∀ j ∈ pre, j.continues L) → sys_read it (MAX_PAYLOAD_SIZE L) = some bs → bs ≠ [] →
        it.llwrite = -1 →
        (txLoop L seq iters).2.2 = true ∧
          sentPackets (txLoop L seq iters).1 = sentPackets (txLoop L seq (pre ++ [it])).1 ∧
          sentPackets (txLoop L seq (pre ++ [it])).1 =
            sentPackets (txLoop L seq pre).1 ++
              [(send_data_packet L (txLoop L seq pre).2.1 bs bs.length (-1)).1.1] ∧
          endWire L ∉ sentPackets (txLoop L seq iters).1) := by
  have hno : ∀ pre : List TxIter, (∀ j ∈ pre, j.continues L) →
      endWire L ∉ sentPackets (txLoop L seq pre).1 := by
    intro pre hpre h
    obtain ⟨p, j, q, e, hp, hj⟩ := ((txLoop_end L hL pre seq).1).1 h
    have hjm : j ∈ pre := by rw [e]; simp
    obtain ⟨bs, h1, h2, _⟩ := hpre j hjm
    rw [hj] at h1
    simp only [Option.some.injEq] at h1
    exact h2 h1.symm
  have hsp : ∀ a b : List Event, sentPackets (a ++ b) = sentPackets a ++ sentPackets b := by
    intro a b
    induction a with
    | nil => rfl
    | cons e a ih => cases e <;> simp [sentPackets, ih]
  refine ⟨(txLoop_end L hL iters seq).1, (txLoop_end L hL iters seq).2, ?_, ?_⟩
  · intro pre post it e hpre hr
    subst e
    obtain ⟨a1, a2⟩ := txLoop_append L pre (it :: post) hpre seq
    rw [a1, a2, txLoop_read_error L _ it post hr]
    simp only [List.append_nil, true_and]
    exact hno pre hpre
  · intro pre post it bs e hpre hr hbs hw
    subst e
    obtain ⟨a1, a2⟩ := txLoop_append L pre (it :: post) hpre seq
    obtain ⟨b1, _⟩ := txLoop_append L pre [it] hpre seq
    rw [a1, a2, b1, txLoop_send_fails L _ it post bs hr hbs hw,
      txLoop_send_fails L _ it [] bs hr hbs hw, hsp]
    simp only [sentPackets, true_and, hw, List.mem_append, List.mem_singleton, not_or]
    exact ⟨hno pre hpre, fun h => data_ne_end L _ bs bs.length (-1) h.symm⟩

/-! ## Reading a file to its end -/

theorem sentPackets_append (a b : List Event) :
    sentPackets (a ++ b) = sentPackets a ++ sentPackets b := by
  induction a with
  | nil => rfl
  | cons e a ih => cases e <;> simp [sentPackets, ih]

theorem chunks_nil (max fuel : Nat) : chunks max fuel [] = [] := by
  cases fuel <;> simp [chunks]

theorem chunks_cons (max fuel : Nat) (hmax : 0 < max) (C : List Nat) (hC : C ≠ []) :
    chunks max (fuel + 1) C = C.take max :: chunks max fuel (C.drop max) := by
  have : C.take max ≠ [] := by
    cases C with
    | nil => exact absurd rfl hC
    | cons a C =>
      cases max with
      | zero => omega
      | succ m => simp
  simp [chunks, this]

theorem chunks_mem (max : Nat) (fuel : Nat) :
    ∀ C F, F ∈ chunks max fuel C → F ≠ [] ∧ F.length ≤ max := by
  induction fuel with
  | zero => intro C F h; simp [chunks] at h
  | succ fuel ih =>
    intro C F h
    simp only [chunks] at h
    split_ifs at h with h0
    · simp at h
    · simp only [List.mem_cons] at h
      rcases h with rfl | h
      · exact ⟨h0, by simp [List.length_take]⟩
      · exact ih _ _ h

theorem chunks_join (max : Nat) (hmax : 0 < max) (fuel : Nat) :
    ∀ C : List Nat, C.length ≤ fuel → (chunks max fuel C).flatten = C := by
  induction fuel with
  | zero =>
    intro C h
    have : C = [] := List.length_eq_zero.mp (by omega)
    subst this
    simp [chunks]
  | succ fuel ih =>
    intro C h
    by_cases hC : C = []
    · subst hC; simp [chunks_nil]
    · have hl : 0 < C.length := List.length_pos.mpr hC
      rw [chunks_cons max fuel hmax C hC, List.flatten_cons,
        ih (C.drop max) (by rw [List.length_drop]; omega), List.take_append_drop]

/-- More fuel than the file has bytes makes no difference. -/
theorem chunks_fuel (max : Nat) (hmax : 0 < max) (f1 : Nat) :
    ∀ (f2 : Nat) (C : List Nat), C.length ≤ f1 → C.length ≤ f2 →
      chunks max f1 C = chunks max f2 C := by
  induction f1 with
  | zero =>
    intro f2 C h1 _
    have : C = [] := List.length_eq_zero.mp (by omega)
    subst this
    simp [chunks_nil]
  | succ f1 ih =>
    intro f2 C h1 h2
    by_cases hC : C = []
    · subst hC; simp [chunks_nil]
    · have hl : 0 < C.length := List.length_pos.mpr hC
      cases f2 with
      | zero => omega
      | succ f2 =>
        rw [chunks_cons max f1 hmax C hC, chunks_cons max f2 hmax C hC,
          ih f2 (C.drop max) (by rw [List.length_drop]; omega)
            (by rw [List.length_drop]; omega)]

/-- The packet `send_data_packet` sends is the Data packet of the
specification. -/
theorem send_data_eq_dataWire (L : PacketH) (s : Nat) (F : List Nat) (hF : F.length < 65536)
    (r : Int) : (send_data_packet L s F F.length r).1.1 = dataWire L s F := by
  rw [send_data_packet_wire, dataWire]
  have e2 : F.length % 65536 / 256 % 256 = F.length / 256 := by omega
  have e3 : F.length % 65536 % 256 = F.length % 256 := by omega
  simp only [e2, e3]

theorem dataWire_mod (L : PacketH) (s t : Nat) (h : s % 256 = t % 256) (F : List Nat) :
    dataWire L s F = dataWire L t F := by
  simp only [dataWire, h]

theorem dataWires_mod (L : PacketH) (Fs : List (List Nat)) :
    ∀ s t : Nat, s % 256 = t % 256 → dataWires L s Fs = dataWires L t Fs := by
  induction Fs with
  | nil => intro s t _; rfl
  | cons F Fs ih =>
    intro s t h
    simp only [dataWires, dataWire_mod L s t h F]
    rw [ih (s + 1) (t + 1) (by omega)]

/-- The call `read` hands over no more bytes than the count asked for. -/
theorem sys_read_length (it : TxIter) (count : Nat) (bs : List Nat)
    (h : sys_read it count = some bs) : bs.length ≤ count := by
  unfold sys_read at h
  cases hr : it.read count with
  | none => rw [hr] at h; cases h
  | some x =>
    rw [hr] at h
    simp only [Option.map_some', Option.some.injEq] at h
    rw [← h, List.length_take]
    omega

/-- The call `read` on a file. -/
theorem sys_read_file (it : TxIter) (content : List Nat) (k count : Nat)
    (h : ∀ c, it.read c = fileRead content k c) :
    sys_read it count = some ((content.drop (k * count)).take count) := by
  simp [sys_read, h, fileRead, List.take_take]

/-- The loop over a file read to its end with every send succeeding: the Data
packets of the fragments in order, then the End packet, and the loop is left. -/
theorem txLoop_file (L : PacketH) (hL : L.WF) (C : List Nat) (iters : List TxIter) :
    ∀ (k seq : Nat), readsFile C k iters →
      (C.drop (k * MAX_PAYLOAD_SIZE L)).length < iters.length →
      sentPackets (txLoop L seq iters).1 =
          dataWires L seq (chunks (MAX_PAYLOAD_SIZE L)
            (C.drop (k * MAX_PAYLOAD_SIZE L)).length (C.drop (k * MAX_PAYLOAD_SIZE L))) ++
            [endWire L] ∧
        (txLoop L seq iters).2.2 = true := by
  obtain ⟨hmax0, hmax1⟩ := MAX_PAYLOAD_SIZE_bounds L hL
  induction iters with
  | nil => intro k seq _ h; simp at h
  | cons it rest ih =>
    intro k seq h hlen
    obtain ⟨hread, hw, hrest⟩ := h
    have hsr := sys_read_file it C k (MAX_PAYLOAD_SIZE L) hread
    by_cases hrem : C.drop (k * MAX_PAYLOAD_SIZE L) = []
    · rw [hrem] at hsr ⊢
      rw [List.take_nil] at hsr
      rw [txLoop_eof L hL seq it rest hsr]
      simp [sentPackets, chunks, dataWires]
    · have hpos : 0 < (C.drop (k * MAX_PAYLOAD_SIZE L)).length := List.length_pos.mpr hrem
      have hne : (C.drop (k * MAX_PAYLOAD_SIZE L)).take (MAX_PAYLOAD_SIZE L) ≠ [] := by
        intro h0
        have := congrArg List.length h0
        simp only [List.length_take, List.length_nil] at this
        omega
      have hF : ((C.drop (k * MAX_PAYLOAD_SIZE L)).take (MAX_PAYLOAD_SIZE L)).length < 65536 := by
        rw [List.length_take]; omega
      have hdd : C.drop ((k + 1) * MAX_PAYLOAD_SIZE L) =
          (C.drop (k * MAX_PAYLOAD_SIZE L)).drop (MAX_PAYLOAD_SIZE L) := by
        rw [List.drop_drop]
        congr 1
        ring
      rw [txLoop_continues L seq it rest _ hsr hne hw]
      obtain ⟨i1, i2⟩ := ih (k + 1) ((seq + 1) % 256) hrest (by
        rw [hdd, List.length_drop]
        simp only [List.length_cons] at hlen
        omega)
      refine ⟨?_, i2⟩
      obtain ⟨n, hn⟩ : ∃ n, (C.drop (k * MAX_PAYLOAD_SIZE L)).length = n + 1 :=
        ⟨(C.drop (k * MAX_PAYLOAD_SIZE L)).length - 1, by omega⟩
      rw [hn, chunks_cons _ n hmax0 _ hrem,
        chunks_fuel _ hmax0 n ((C.drop (k * MAX_PAYLOAD_SIZE L)).drop (MAX_PAYLOAD_SIZE L)).length
          _ (by rw [List.length_drop]; omega) (le_refl _)]
      simp only [sentPackets, i1, dataWires, send_data_eq_dataWire L seq _ hF, List.cons_append,
        hdd]
      rw [dataWires_mod L _ ((seq + 1) % 256) (seq + 1) (by omega)]

/-- The transmitter when every operation succeeds: the Start packet, the Data
packets of the fragments in order, the End packet; then the file and the
connection are closed. -/
theorem tx_success (L : PacketH) (hL : L.WF) (seq : Nat) (filename C : List Nat)
    (env : TxEnv) (henv : env.succeeds C) :
    sentPackets (applicationLayer_tx L seq filename env).trace =
        (send_control_packet L L.START C.length filename env.start_llwrite).1 ::
          (dataWires L seq (chunks (MAX_PAYLOAD_SIZE L) C.length C) ++ [endWire L]) ∧
      (applicationLayer_tx L seq filename env).outcome = Outcome.returned := by
  have h0 : C.drop (0 * MAX_PAYLOAD_SIZE L) = C := by simp
  obtain ⟨t1, t2⟩ := txLoop_file L hL C env.iters 0 seq henv.iters (by rw [h0]; exact henv.enough)
  rw [h0] at t1
  have hr : (send_control_packet L L.START C.length filename env.start_llwrite).2 =
      env.start_llwrite := rfl
  have hi : init_transmission L filename env.stat env.start_llwrite =
      ([Event.llwrite (send_control_packet L L.START C.length filename env.start_llwrite).1
          env.start_llwrite], 1) := by
    simp [init_transmission, henv.stat, hr, henv.start_llwrite]
  simp only [applicationLayer_tx, henv.llopen, henv.open_fd, hi, t2, if_true, if_false,
    Bool.true_eq_false, sentPackets_append, sentPackets, t1]
  simp [sentPackets_append, t1, sentPackets]

/-- C4. With `MAX_PAYLOAD_SIZE` 996 (`sizeof(DATA)` being 1), for a source file of
exactly 2500 bytes and every operation succeeding, the transmitter sends
exactly: the Start packet, three Data packets with sequence numbers 0, 1, 2
and fragments of 996, 996 and 508 bytes (length bytes 3,228 and 3,228 and
1,252), the file content in order, then the End packet. -/
theorem concrete_fragmentation (L : PacketH) (hL : L.WF) (h1 : L.sizeof_DATA = 1)
    (N junk C : List Nat) (hN : ∀ c ∈ N, c ≠ 0) (hC : C.length = 2500) (env : TxEnv)
    (henv : env.succeeds C) :
    MAX_PAYLOAD_SIZE L = 996 ∧
      sentPackets (applicationLayer_tx L 0 (N ++ 0 :: junk) env).trace =
        [startWire L 2500 N,
         leBytes L.sizeof_packet_type L.DATA ++ [0, 3, 228] ++ C.take 996,
         leBytes L.sizeof_packet_type L.DATA ++ [1, 3, 228] ++ (C.drop 996).take 996,
         leBytes L.sizeof_packet_type L.DATA ++ [2, 1, 252] ++ C.drop 1992,
         endWire L] ∧
      (C.take 996).length = 996 ∧ ((C.drop 996).take 996).length = 996 ∧
      (C.drop 1992).length = 508 ∧ 3 * 256 + 228 = 996 ∧ 1 * 256 + 252 = 508 := by
  have hm : MAX_PAYLOAD_SIZE L = 996 := by simp [MAX_PAYLOAD_SIZE, h1]
  have l1 : (C.take 996).length = 996 := by simp [List.length_take, hC]
  have l2 : ((C.drop 996).take 996).length = 996 := by
    simp [List.length_take, List.length_drop, hC]
  have l3 : (C.drop 1992).length = 508 := by simp [List.length_drop, hC]
  have n0 : C ≠ [] := by intro h; rw [h] at hC; simp at hC
  have n1 : C.drop 996 ≠ [] := by
    intro h; have := congrArg List.length h; simp [List.length_drop, hC] at this
  have n2 : (C.drop 996).drop 996 ≠ [] := by
    intro h; have := congrArg List.length h; simp [List.length_drop, hC] at this
  have n3 : ((C.drop 996).drop 996).drop 996 = [] := by
    apply List.length_eq_zero.mp; simp [List.length_drop, hC]
  have d2 : (C.drop 996).drop 996 = C.drop 1992 := by rw [List.drop_drop]
  have t3 : (C.drop 1992).take 996 = C.drop 1992 := List.take_of_length_le (by omega)
  have hch : chunks 996 C.length C =
      [C.take 996, (C.drop 996).take 996, C.drop 1992] := by
    rw [hC]
    show chunks 996 (2499 + 1) C = _
    rw [chunks_cons 996 2499 (by norm_num) C n0]
    show _ :: chunks 996 (2498 + 1) _ = _
    rw [chunks_cons 996 2498 (by norm_num) _ n1]
    show _ :: _ :: chunks 996 (2497 + 1) _ = _
    rw [chunks_cons 996 2497 (by norm_num) _ n2, n3, chunks_nil, d2, t3]
  obtain ⟨t, _⟩ := tx_success L hL 0 (N ++ 0 :: junk) C env henv
  refine ⟨hm, ?_, l1, l2, l3, by norm_num, by norm_num⟩
  rw [t, send_start_wire L C.length N junk hN, hm, hch, hC]
  simp only [dataWires, dataWire, l1, l2, l3, List.nil_append, List.cons_append,
    List.singleton_append]

/-- Every packet the loop sends is the End packet or a Data packet built from a
non-empty result of `read`, which has at most `MAX_PAYLOAD_SIZE` bytes. -/
theorem txLoop_packets (L : PacketH) (hL : L.WF) (iters : List TxIter) :
    ∀ (seq : Nat), ∀ p ∈ sentPackets (txLoop L seq iters).1,
      p = endWire L ∨
        ∃ (s : Nat) (F : List Nat) (r : Int), F ≠ [] ∧ F.length ≤ MAX_PAYLOAD_SIZE L ∧
          p = (send_data_packet L s F F.length r).1.1 := by
  induction iters with
  | nil => intro seq p hp; simp [txLoop, sentPackets] at hp
  | cons it rest ih =>
    intro seq p hp
    cases hr : sys_read it (MAX_PAYLOAD_SIZE L) with
    | none =>
      rw [txLoop_read_error L seq it rest hr] at hp
      simp [sentPackets] at hp
    | some bs =>
      have hlen := sys_read_length it _ bs hr
      by_cases hbs : bs = []
      · subst hbs
        rw [txLoop_eof L hL seq it rest hr] at hp
        simp only [sentPackets, List.mem_singleton] at hp
        exact Or.inl hp
      · by_cases hw : it.llwrite = -1
        · rw [txLoop_send_fails L seq it rest bs hr hbs hw] at hp
          simp only [sentPackets, List.mem_singleton] at hp
          exact Or.inr ⟨seq, bs, it.llwrite, hbs, hlen, hp⟩
        · rw [txLoop_continues L seq it rest bs hr hbs hw] at hp
          simp only [sentPackets, List.mem_cons] at hp
          rcases hp with hp | hp
          · exact Or.inr ⟨seq, bs, it.llwrite, hbs, hlen, hp⟩
          · exact ih _ p hp

/-- The packets of a run of the transmitter: the Start packet, if `stat`
succeeded, and packets of the loop. -/
theorem tx_sent (L : PacketH) (seq : Nat) (filename : List Nat) (env : TxEnv) :
    ∀ p ∈ sentPackets (applicationLayer_tx L seq filename env).trace,
      (∃ S, env.stat = some S ∧
        p = (send_control_packet L L.START S filename env.start_llwrite).1) ∨
      p ∈ sentPackets (txLoop L seq env.iters).1 := by
  intro p hp
  by_cases c1 : env.llopen = false
  · simp [applicationLayer_tx, c1, sentPackets] at hp
  by_cases c2 : env.open_fd = -1
  · simp [applicationLayer_tx, c1, c2, sentPackets] at hp
  cases hs : env.stat with
  | none => simp [applicationLayer_tx, c1, c2, init_transmission, hs, sentPackets] at hp
  | some S =>
    by_cases c3 : (send_control_packet L L.START S filename env.start_llwrite).2 = -1
    · simp [applicationLayer_tx, c1, c2, init_transmission, hs, c3, sentPackets] at hp
      exact Or.inl ⟨S, rfl, hp⟩
    · by_cases c4 : (txLoop L seq env.iters).2.2 = true
      · simp [applicationLayer_tx, c1, c2, init_transmission, hs, c3, c4, sentPackets,
          sentPackets_append] at hp
        rcases hp with hp | hp
        · exact Or.inl ⟨S, rfl, hp⟩
        · exact Or.inr hp
      · simp [applicationLayer_tx, c1, c2, init_transmission, hs, c3, c4, sentPackets,
          sentPackets_append] at hp
        rcases hp with hp | hp
        · exact Or.inl ⟨S, rfl, hp⟩
        · exact Or.inr hp

theorem take_leBytes_append (n v : Nat) (rest : List Nat) :
    (leBytes n v ++ rest).take n = leBytes n v := by
  have := List.take_left (leBytes n v) rest
  rwa [length_leBytes] at this

/-- C5. With `MAX_PAYLOAD_SIZE` 996 (`sizeof(DATA)` being 1), whatever the file
system answers to the `read` calls and whatever the results of the sends, every
packet the transmitter hands to `llwrite` whose type reads as Data is a Data
packet whose fragment is not empty and has at most 996 bytes, the length in
its header; and for a file of length 0, every operation succeeding, the
transmitter sends exactly the Start packet and then the End packet. -/
theorem fragmentation_bound (L : PacketH) (hL : L.WF) (h1 : L.sizeof_DATA = 1) (seq : Nat)
    (filename : List Nat) (env : TxEnv) :
    (∀ p ∈ sentPackets (applicationLayer_tx L seq filename env).trace,
      leVal (p.take L.sizeof_packet_type) = L.DATA →
      ∃ (s : Nat) (F : List Nat), s < 256 ∧
        p = leBytes L.sizeof_packet_type L.DATA ++ [s, F.length / 256, F.length % 256] ++ F ∧
        0 < F.length ∧ F.length ≤ 996) ∧
      (∀ N junk : List Nat, filename = N ++ 0 :: junk → (∀ c ∈ N, c ≠ 0) →
        env.succeeds [] →
        sentPackets (applicationLayer_tx L seq filename env).trace =
          [startWire L 0 N, endWire L]) := by
  have hm : MAX_PAYLOAD_SIZE L = 996 := by simp [MAX_PAYLOAD_SIZE, h1]
  constructor
  · intro p hp ht
    have hloop : p ∈ sentPackets (txLoop L seq env.iters).1 →
        ∃ (s : Nat) (F : List Nat), s < 256 ∧
          p = leBytes L.sizeof_packet_type L.DATA ++ [s, F.length / 256, F.length % 256] ++ F ∧
          0 < F.length ∧ F.length ≤ 996 := by
      intro hp
      rcases txLoop_packets L hL env.iters seq p hp with h | ⟨s, F, r, hF, hlen, h⟩
      · exfalso
        rw [h, endWire] at ht
        have := take_leBytes_append L.sizeof_packet_type L.END []
        rw [List.append_nil] at this
        rw [this, leVal_leBytes _ _ hL.end_lt] at ht
        exact hL.data_ne_end ht.symm
      · rw [hm] at hlen
        refine ⟨s % 256, F, Nat.mod_lt _ (by norm_num), ?_, List.length_pos.mpr hF, hlen⟩
        rw [h, send_data_eq_dataWire L s F (by omega), dataWire]
    have hstart : ∀ S : Nat,
        p ≠ (send_control_packet L L.START S filename env.start_llwrite).1 := by
      intro S h
      have e : (send_control_packet L L.START S filename env.start_llwrite).1 =
          leBytes L.sizeof_packet_type L.START ++
            ((create_control_packet L L.START S filename).information.getD []) := by
        simp [send_control_packet, send_packet, create_control_packet, bv_push]
      rw [h, e, take_leBytes_append, leVal_leBytes _ _ hL.start_lt] at ht
      exact hL.start_ne_data ht
    rcases tx_sent L seq filename env p hp with ⟨S, _, h⟩ | h
    · exact absurd h (hstart S)
    · exact hloop h
  · intro N junk hfn hN henv
    subst hfn
    have := (tx_success L hL seq (N ++ 0 :: junk) [] env henv).1
    rw [this, send_start_wire L _ N junk hN]
    simp [chunks, dataWires]

/-! ## The receiver on what the transmitter sent -/

theorem outputFile_append (a b : List Event) :
    ∀ c : List Nat, outputFile c (a ++ b) = outputFile (outputFile c a) b := by
  induction a with
  | nil => intro c; rfl
  | cons e a ih => intro c; cases e <;> simp [outputFile, ih]

theorem chunks_mem_le (max : Nat) (fuel : Nat) :
    ∀ C F, F ∈ chunks max fuel C → F.length ≤ C.length := by
  induction fuel with
  | zero => intro C F h; simp [chunks] at h
  | succ fuel ih =>
    intro C F h
    simp only [chunks] at h
    split_ifs at h with h0
    · simp at h
    · simp only [List.mem_cons] at h
      rcases h with rfl | h
      · rw [List.length_take]; omega
      · have := ih _ _ h
        rw [List.length_drop] at this
        omega

/-- The receiver loop on Data packets that fit the array and the End packet,
every `write` complete: the fragments are appended to the file in order. -/
theorem rx_frags (L : PacketH) (hL : L.WF)
    (hT : L.sizeof_packet_type ≤ MAX_PAYLOAD_SIZE L) (frags : List (List Nat)) :
    ∀ (seq : Nat) (st : RxState) (iters : List RxIter) (content : List Nat),
      (∀ F ∈ frags, L.sizeof_packet_type + 3 + F.length ≤ MAX_PAYLOAD_SIZE L) →
      List.Forall₂ RxIter.succeeds iters (dataWires L seq frags ++ [endWire L]) →
      outputFile content (rxLoop L st iters).1 = content ++ frags.flatten ∧
        (rxLoop L st iters).2.2 = Outcome.returned ∧ (rxLoop L st iters).2.1.fd = st.fd := by
  have hm := MAX_PAYLOAD_SIZE_le L
  induction frags with
  | nil =>
    intro seq st iters content _ h
    simp only [dataWires, List.nil_append] at h
    cases h with
    | cons h1 h2 =>
      cases h2
      rw [rxLoop_end L hL st _ _ h1.1, if_neg (by omega)]
      simp [outputFile]
  | cons F frags ih =>
    intro seq st iters content hF h
    simp only [dataWires, List.cons_append] at h
    cases h with
    | cons h1 h2 =>
      rename_i it rest
      have hfit := hF F (by simp)
      have hF2 : ∀ G ∈ frags, L.sizeof_packet_type + 3 + G.length ≤ MAX_PAYLOAD_SIZE L :=
        fun G hG => hF G (by simp [hG])
      have hw : it.write_ret F.length = (F.length : Int) := h1.2.2 F.length
      rw [rxLoop_data L hL st it rest (seq % 256) (Nat.mod_lt _ (by norm_num)) F (by omega)
        h1.1]
      have hn1 : ¬ ((F.length : Int) = -1) := by omega
      have hn2 : ¬ MAX_PAYLOAD_SIZE L < L.sizeof_packet_type + 3 + F.length := by omega
      simp only [hw, hn1, hn2, if_false]
      split_ifs with h0
      · simp only [outputFile, Int.toNat_ofNat, List.take_length, List.flatten_cons]
        rw [← List.append_assoc]
        exact ih (seq + 1) _ rest (content ++ F) hF2 h2
      · simp only [outputFile, Int.toNat_ofNat, List.take_length, List.flatten_cons]
        rw [← List.append_assoc]
        exact ih (seq + 1) _ rest (content ++ F) hF2 h2

/-- The round trip for the files whose packets all fit the array `packet_data`:
when every operation succeeds, the receiver leaves its loop at the End packet
and its output file holds exactly the content sent. -/
theorem round_trip_fits (L : PacketH) (hL : L.WF) (C N junk : List Nat)
    (hN : ∀ c ∈ N, c ≠ 0) (hstart : (startWire L C.length N).length ≤ MAX_PAYLOAD_SIZE L)
    (hC : L.sizeof_packet_type + 3 + C.length ≤ MAX_PAYLOAD_SIZE L) (seq : Nat)
    (env : TxEnv) (henv : env.succeeds C) (rx_iters : List RxIter)
    (hrx : List.Forall₂ RxIter.succeeds rx_iters
      (sentPackets (applicationLayer_tx L seq (N ++ 0 :: junk) env).trace))
    (packet_data : Nat → Nat) (file_size total_bytes_written : Nat) (before : List Nat) :
    (applicationLayer_rx L packet_data file_size total_bytes_written true rx_iters).outcome =
        Outcome.returned ∧
      outputFile before
        (applicationLayer_rx L packet_data file_size total_bytes_written true rx_iters).trace =
        C := by
  obtain ⟨hmax0, hmax1⟩ := MAX_PAYLOAD_SIZE_bounds L hL
  rw [(tx_success L hL seq (N ++ 0 :: junk) C env henv).1,
    send_start_wire L C.length N junk hN] at hrx
  cases hrx with
  | cons h1 h2 =>
    rename_i it rest
    have hfr : ∀ F ∈ chunks (MAX_PAYLOAD_SIZE L) C.length C,
        L.sizeof_packet_type + 3 + F.length ≤ MAX_PAYLOAD_SIZE L := by
      intro F hF
      have := chunks_mem_le _ _ _ _ hF
      omega
    have hs := rxLoop_start L hL (rxInit packet_data file_size total_bytes_written) it rest
      C.length (by omega) N hN h1.1
    simp only [if_neg h1.2.1, if_neg (Nat.not_lt.mpr hstart), rxInit] at hs
    obtain ⟨i1, i2, i3⟩ := rx_frags L hL (by omega) _ seq
      (RxState.mk (storePacket packet_data (startWire L C.length N)) it.open_ret C.length
        total_bytes_written) rest [] hfr h2
    simp only [applicationLayer_rx, Bool.true_eq_false, if_false, rxInit, hs, i2]
    refine ⟨trivial, ?_⟩
    rw [List.append_assoc, List.cons_append, outputFile, outputFile_append, i1,
      List.nil_append, chunks_join _ hmax0 _ C (le_refl _)]
    split_ifs <;> simp [outputFile]

/-- The round trip for the files with a fragment whose Data packet does not fit
the array `packet_data`: with every operation succeeding, `llread` overruns the
array at the first Data packet at the latest, and no `write` is reached. -/
theorem round_trip_overrun (L : PacketH) (hL : L.WF) (C filename : List Nat) (hC : C ≠ [])
    (hbig : MAX_PAYLOAD_SIZE L < L.sizeof_packet_type + 3 + C.length) (seq : Nat)
    (env : TxEnv) (henv : env.succeeds C) (rx_iters : List RxIter)
    (hrx : List.Forall₂ RxIter.succeeds rx_iters
      (sentPackets (applicationLayer_tx L seq filename env).trace))
    (packet_data : Nat → Nat) (file_size total_bytes_written : Nat) :
    (applicationLayer_rx L packet_data file_size total_bytes_written true rx_iters).outcome =
        Outcome.overrun ∧
      writes
        (applicationLayer_rx L packet_data file_size total_bytes_written true rx_iters).trace =
        [] := by
  obtain ⟨hmax0, hmax1⟩ := MAX_PAYLOAD_SIZE_bounds L hL
  rw [(tx_success L hL seq filename C env henv).1] at hrx
  obtain ⟨n, hn⟩ : ∃ n, C.length = n + 1 :=
    ⟨C.length - 1, by have := List.length_pos.mpr hC; omega⟩
  rw [hn, chunks_cons _ n hmax0 C hC] at hrx
  simp only [dataWires, List.cons_append] at hrx
  cases hrx with
  | cons h1 h2 =>
    rename_i it rest
    cases h2 with
    | cons h3 h4 =>
      rename_i it2 rest2
      have hFlen : (C.take (MAX_PAYLOAD_SIZE L)).length ≤ MAX_PAYLOAD_SIZE L := by
        rw [List.length_take]; omega
      have hFbig : MAX_PAYLOAD_SIZE L <
          L.sizeof_packet_type + 3 + (C.take (MAX_PAYLOAD_SIZE L)).length := by
        rw [List.length_take]; omega
      have hd : ∀ st : RxState, rxLoop L st (it2 :: rest2) = ([], st, Outcome.overrun) :=
        fun st => rxLoop_data_overrun L hL st it2 rest2 seq _ hFlen hFbig h3.1
      obtain ⟨info, hinfo⟩ := send_start_type L (n + 1) filename env.start_llwrite
      obtain ⟨name, st1, hs | ⟨_, hs⟩⟩ := rxLoop_start_any L hL
        (rxInit packet_data file_size total_bytes_written) it (it2 :: rest2) info
        (hinfo ▸ h1.1)
      · simp only [applicationLayer_rx, Bool.true_eq_false, if_false, hs, writes, and_self]
      · simp only [if_neg h1.2.1, hd] at hs
        simp only [applicationLayer_rx, Bool.true_eq_false, if_false, hs, writes, and_self]

/-- The file that has seen no `write` since it was emptied is empty. -/
theorem outputFile_no_write (tr : List Event) (h : writes tr = []) :
    outputFile [] tr = [] := by
  induction tr with
  | nil => rfl
  | cons e tr ih =>
    cases e with
    | write fd bytes result => simp [writes] at h
    | llwrite b r => exact ih h
    | open_file n fd => exact ih h
    | info q => exact ih h
    | close fd => exact ih h
    | llclose => exact ih h
    | exit c => exact ih h

/-! ## Progress -/

/-- C7, as the code has it. The receiver checks no length: given a Data packet
with header `s, h, l` that holds fewer fragment bytes `G` than the `h * 256 + l`
it declares, where the declared bytes still lie in the array `packet_data`, the
first thing the receiver loop does is a `write` of `h * 256 + l` bytes, the
bytes `G` followed by what the array held behind them before the packet came
in; no error is raised for the packet. -/
theorem truncated_data_packet (L : PacketH) (hL : L.WF) (s h l : Nat) (hs : s < 256)
    (hh : h < 256) (hl : l < 256) (G : List Nat) (hG : G.length < h * 256 + l)
    (hfit : L.sizeof_packet_type + 3 + (h * 256 + l) ≤ MAX_PAYLOAD_SIZE L)
    (st : RxState) (it : RxIter) (rest : List RxIter)
    (hit : it.llread = some (leBytes L.sizeof_packet_type L.DATA ++ [s, h, l] ++ G)) :
    (rxLoop L st (it :: rest)).1.head? =
      some (Event.write st.fd
        (G ++ readBytes st.packet_data (L.sizeof_packet_type + 3 + G.length)
          (h * 256 + l - G.length))
        (it.write_ret (h * 256 + l))) := by
  have e5 := readBytes_store_short st.packet_data
    (leBytes L.sizeof_packet_type L.DATA ++ [s, h, l]) G (h * 256 + l) (by omega)
  have e6 : (leBytes L.sizeof_packet_type L.DATA ++ [s, h, l]).length =
      L.sizeof_packet_type + 3 := by simp [length_leBytes]
  rw [e6] at e5
  rw [rxLoop_data_gen L hL st it rest s h l hs hh hl G hit]
  have c1 : ¬ MAX_PAYLOAD_SIZE L < L.sizeof_packet_type + 3 + G.length := by omega
  have c2 : ¬ MAX_PAYLOAD_SIZE L < L.sizeof_packet_type + 3 + (h * 256 + l) := by omega
  simp only [if_neg c1, if_neg c2, e5]
  split_ifs <;> rfl

/-! ## Release of the file and of the connection -/

theorem txLoop_events (L : PacketH) (iters : List TxIter) :
    ∀ (seq : Nat), ∀ e ∈ (txLoop L seq iters).1, ∃ b r, e = Event.llwrite b r := by
  induction iters with
  | nil => intro seq e he; simp [txLoop] at he
  | cons it rest ih =>
    intro seq e he
    cases hr : sys_read it (MAX_PAYLOAD_SIZE L) with
    | none =>
      rw [txLoop_read_error L seq it rest hr] at he
      simp at he
    | some bs =>
      rw [txLoop, hr] at he
      simp only at he
      split_ifs at he
      · simp only [List.mem_singleton] at he
        exact ⟨_, _, he⟩
      · simp only [List.mem_singleton] at he
        exact ⟨_, _, he⟩
      · simp only [List.mem_cons] at he
        rcases he with he | he
        · exact ⟨_, _, he⟩
        · exact ih _ e he

theorem init_transmission_events (L : PacketH) (filename : List Nat) (stat : Option Nat)
    (w : Int) : ∀ e ∈ (init_transmission L filename stat w).1, ∃ b r, e = Event.llwrite b r := by
  intro e he
  cases stat with
  | none => simp [init_transmission] at he
  | some S =>
    simp only [init_transmission] at he
    split_ifs at he <;> simp only [List.mem_singleton] at he <;> exact ⟨_, _, he⟩

theorem init_transmission_fails (L : PacketH) (filename : List Nat) (stat : Option Nat)
    (w : Int) : (init_transmission L filename stat w).2 = -1 ↔ stat = none ∨ w = -1 := by
  cases stat with
  | none => simp [init_transmission]
  | some S =>
    simp only [init_transmission, send_control_packet, send_packet]
    split_ifs with h <;> simp [h]

/-- C8, as the code has it. With the connection open: when the source file cannot
be opened, its size cannot be determined, or the Start packet cannot be sent,
the run ends in `exit(-1)` and calls neither `close` nor `llclose`; otherwise,
on every way out of the loop, the run ends with `close` on the file and then
`llclose`, each called that once. -/
theorem transmitter_release (L : PacketH) (seq : Nat) (filename : List Nat) (env : TxEnv)
    (hopen : env.llopen = true) :
    ((env.open_fd = -1 ∨ env.stat = none ∨ env.start_llwrite = -1) →
        (applicationLayer_tx L seq filename env).outcome = Outcome.exited ∧
        (applicationLayer_tx L seq filename env).trace.getLast? = some (Event.exit (-1)) ∧
        Event.llclose ∉ (applicationLayer_tx L seq filename env).trace ∧
        ∀ fd, Event.close fd ∉ (applicationLayer_tx L seq filename env).trace) ∧
      (env.open_fd ≠ -1 → env.stat ≠ none → env.start_llwrite ≠ -1 →
        (txLoop L seq env.iters).2.2 = true →
        (applicationLayer_tx L seq filename env).outcome = Outcome.returned ∧
        ∃ pre, (applicationLayer_tx L seq filename env).trace =
            pre ++ [Event.close env.open_fd, Event.llclose] ∧
          Event.llclose ∉ pre ∧ ∀ fd, Event.close fd ∉ pre) := by
  have hi := init_transmission_events L filename env.stat env.start_llwrite
  have hf := init_transmission_fails L filename env.stat env.start_llwrite
  have ht := txLoop_events L env.iters seq
  constructor
  · intro hfatal
    by_cases c2 : env.open_fd = -1
    · simp [applicationLayer_tx, hopen, c2]
    · have c3 : (init_transmission L filename env.stat env.start_llwrite).2 = -1 := by
        rw [hf]; tauto
      simp only [applicationLayer_tx, hopen, c2, c3, Bool.true_eq_false, if_false, if_true]
      refine ⟨trivial, ?_, ?_, ?_⟩
      · exact List.getLast?_concat _
      · intro h
        simp only [List.mem_append, List.mem_cons, List.mem_singleton, List.not_mem_nil,
          or_false] at h
        rcases h with (h | h) | h
        · cases h
        · obtain ⟨b, r, e⟩ := hi _ h; cases e
        · cases h
      · intro fd h
        simp only [List.mem_append, List.mem_cons, List.mem_singleton, List.not_mem_nil,
          or_false] at h
        rcases h with (h | h) | h
        · cases h
        · obtain ⟨b, r, e⟩ := hi _ h; cases e
        · cases h
  · intro c2 hs hw hl
    have c3 : ¬ (init_transmission L filename env.stat env.start_llwrite).2 = -1 := by
      rw [hf]; tauto
    simp only [applicationLayer_tx, hopen, c2, c3, hl, Bool.true_eq_false, if_false, if_true]
    refine ⟨trivial, _, rfl, ?_, ?_⟩
    · intro h
      simp only [List.mem_append, List.mem_cons, List.mem_singleton, List.not_mem_nil,
        or_false] at h
      rcases h with (h | h) | h
      · cases h
      · obtain ⟨b, r, e⟩ := hi _ h; cases e
      · obtain ⟨b, r, e⟩ := ht _ h; cases e
    · intro fd h
      simp only [List.mem_append, List.mem_cons, List.mem_singleton, List.not_mem_nil,
        or_false] at h
      rcases h with (h | h) | h
      · cases h
      · obtain ⟨b, r, e⟩ := hi _ h; cases e
      · obtain ⟨b, r, e⟩ := ht _ h; cases e

/-! ## The Start packet round trip -/

/-- C2, as the code has it. For a size `S` in the 64-bit range and a C string `N`
(its characters, none of them NUL, then the terminator, then anything) whose
Start packet fits the array `packet_data`, the bytes `send_packet` serialises
from `create_control_packet(START, S, N)` are stored by `llread` within the
array and dispatched by the receiver to its START branch, which reads back
`file_size = S`, the name length, the name bytes `N`, and derives the output
name `N` followed by `_test`, the name the receiver loop passes to `open`. -/
theorem start_packet_round_trip (L : PacketH) (hL : L.WF) (S : Nat) (hS : S < 2 ^ 64)
    (N junk : List Nat) (hN : ∀ c ∈ N, c ≠ 0)
    (hfit : L.sizeof_packet_type + L.sizeof_field_type + 8 + 8 + L.sizeof_field_type + 8 +
      N.length ≤ MAX_PAYLOAD_SIZE L)
    (r : Int) (st : RxState) (open_ret : Int) (write_ret : Nat → Int) (rest : List RxIter) :
    ∃ stored : Nat → Nat,
      llread_store (MAX_PAYLOAD_SIZE L) st.packet_data
          (send_packet L (create_control_packet L L.START S (N ++ 0 :: junk)) r).1 =
        some stored ∧
      (readArray (MAX_PAYLOAD_SIZE L) stored 0 L.sizeof_packet_type).map leVal =
        some L.START ∧
      startBranch L stored L.sizeof_packet_type =
        some { file_size := S, filename_length := N.length,
               name_ptr :=
                 L.sizeof_packet_type + L.sizeof_field_type + 8 + 8 + L.sizeof_field_type + 8,
               file_name := N ++ [95, 116, 101, 115, 116] } ∧
      readArray (MAX_PAYLOAD_SIZE L) stored
          (L.sizeof_packet_type + L.sizeof_field_type + 8 + 8 + L.sizeof_field_type + 8)
          N.length = some N ∧
      (rxLoop L st (RxIter.mk
          (some (send_packet L (create_control_packet L L.START S (N ++ 0 :: junk)) r).1)
          open_ret write_ret :: rest)).1.head? =
        some (Event.open_file (N ++ [95, 116, 101, 115, 116]) open_ret) := by
  have hw : (send_packet L (create_control_packet L L.START S (N ++ 0 :: junk)) r).1 =
      startWire L S N := by
    have := send_start_wire L S N junk hN r
    rw [send_control_packet] at this
    rw [this]
  have hlen := length_startWire L S N
  have hfit2 : (startWire L S N).length ≤ MAX_PAYLOAD_SIZE L := by rw [hlen]; exact hfit
  rw [hw]
  refine ⟨storePacket st.packet_data (startWire L S N),
    llread_store_fits _ _ _ hfit2, ?_, startBranch_store L S hS N hN hfit2 st.packet_data,
    ?_, ?_⟩
  · rw [readArray_in _ _ _ _ (by omega)]
    simp only [Option.map_some', Option.some.injEq]
    rw [startWire, List.append_assoc]
    exact packet_type_store _ _ hL.start_lt _ _
  · rw [readArray_in _ _ _ _ (by omega)]
    congr 1
    exact readBytes_store st.packet_data _
      (leBytes L.sizeof_packet_type L.START ++ leBytes L.sizeof_field_type L.FILE_SIZE ++
        leBytes 8 8 ++ leBytes 8 S ++ leBytes L.sizeof_field_type L.FILE_NAME ++
        leBytes 8 N.length)
      N [] _ _
      (by simp [startWire]) (by simp [length_leBytes]; omega) rfl
  · rw [rxLoop_start L hL st _ rest S hS N hN rfl]
    simp only [if_neg (Nat.not_lt.mpr hfit2)]
    split_ifs <;> rfl

/-! ## Instances -/

theorem specPacketH_wf : specPacketH.WF :=
  { start_ne_data := by decide, start_ne_end := by decide, data_ne_end := by decide,
    start_lt := by decide, data_lt := by decide, end_lt := by decide,
    sizeof_DATA_pos := by decide, sizeof_DATA_le := by decide }

theorem rxIters_succeeds (pkts : List (List Nat)) (fd : Int) (hfd : fd ≠ -1) :
    List.Forall₂ RxIter.succeeds (rxIters pkts fd) pkts := by
  induction pkts with
  | nil => exact List.Forall₂.nil
  | cons r pkts ih => exact List.Forall₂.cons ⟨rfl, hfd, fun _ => rfl⟩ ih

theorem readsFile_fileIters (content : List Nat) (ok : Int) (hok : ok ≠ -1) (n : Nat) :
    ∀ k : Nat, readsFile content k (fileIters content ok k n) := by
  induction n with
  | zero => intro k; trivial
  | succ n ih => intro k; exact ⟨fun _ => rfl, hok, ih (k + 1)⟩

theorem length_fileIters (content : List Nat) (ok : Int) (n : Nat) :
    ∀ k : Nat, (fileIters content ok k n).length = n := by
  induction n with
  | zero => intro k; rfl
  | succ n ih => intro k; simp [fileIters, ih]

theorem okTxEnv_succeeds (content : List Nat) : (okTxEnv content).succeeds content :=
  { llopen := rfl
    open_fd := by show (3 : Int) ≠ -1; decide
    stat := rfl
    start_llwrite := by show (0 : Int) ≠ -1; decide
    iters := readsFile_fileIters content 0 (by decide) _ 0
    enough := by
      show content.length < (fileIters content 0 0 (content.length + 1)).length
      rw [length_fileIters]
      omega }

/-- C1 fails on the code at a file of 993 bytes named `a` (one-byte packet type,
`MAX_PAYLOAD_SIZE` 996), every operation succeeding: its one Data packet has
1 + 3 + 993 = 997 bytes, and `llread` overruns the array `packet_data` of 996
bytes; the run reaches no `write`, and no defined run leaves the content in the
output file. -/
theorem round_trip_overrun_at_993 :
    MAX_PAYLOAD_SIZE specPacketH = 996 ∧
      (applicationLayer_rx specPacketH (fun _ => 0) 0 0 true
        (rxIters (sentPackets
          (applicationLayer_tx specPacketH 0 [97, 0] (okTxEnv (List.replicate 993 7))).trace)
          4)).outcome = Outcome.overrun ∧
      outputFile []
        (applicationLayer_rx specPacketH (fun _ => 0) 0 0 true
          (rxIters (sentPackets
            (applicationLayer_tx specPacketH 0 [97, 0] (okTxEnv (List.replicate 993 7))).trace)
            4)).trace ≠ List.replicate 993 7 := by
  have hlen : (List.replicate 993 7).length = 993 := List.length_replicate 993 7
  have hne : List.replicate 993 7 ≠ ([] : List Nat) := by
    intro h0
    rw [h0] at hlen
    cases hlen
  have hbig : MAX_PAYLOAD_SIZE specPacketH <
      specPacketH.sizeof_packet_type + 3 + (List.replicate 993 7).length := by
    rw [hlen]; decide
  have h := round_trip_overrun specPacketH specPacketH_wf (List.replicate 993 7) [97, 0]
    hne hbig 0 (okTxEnv (List.replicate 993 7))
    (okTxEnv_succeeds _) _ (rxIters_succeeds _ 4 (by decide)) (fun _ => 0) 0 0
  refine ⟨rfl, h.1, ?_⟩
  rw [outputFile_no_write _ h.2]
  exact hne.symm

/-- C2 as stated fails for a name of 1000 bytes: its Start packet has 1027 bytes,
more than the array `packet_data` holds, so that `llread` overruns the array
and the START branch derives no name. -/
theorem start_packet_long_name :
    llread_store (MAX_PAYLOAD_SIZE specPacketH) (fun _ => 0)
        (send_packet specPacketH
          (create_control_packet specPacketH specPacketH.START 5
            (List.replicate 1000 97 ++ 0 :: [])) 0).1 = none ∧
      rxLoop specPacketH (rxInit (fun _ => 0) 0 0)
        [RxIter.mk (some (send_packet specPacketH
          (create_control_packet specPacketH specPacketH.START 5
            (List.replicate 1000 97 ++ 0 :: [])) 0).1) 4 (fun n => (n : Int))] =
        ([], rxInit (fun _ => 0) 0 0, Outcome.overrun) := by
  have hN : ∀ c ∈ List.replicate 1000 97, c ≠ 0 := by
    intro c hc
    rw [List.eq_of_mem_replicate hc]
    decide
  have hw : (send_packet specPacketH
      (create_control_packet specPacketH specPacketH.START 5
        (List.replicate 1000 97 ++ 0 :: [])) 0).1 =
      startWire specPacketH 5 (List.replicate 1000 97) := by
    have := send_start_wire specPacketH 5 (List.replicate 1000 97) [] hN 0
    rw [send_control_packet] at this
    rw [this]
  have hbig : MAX_PAYLOAD_SIZE specPacketH <
      (startWire specPacketH 5 (List.replicate 1000 97)).length := by
    rw [length_startWire, List.length_replicate]
    decide
  rw [hw]
  refine ⟨llread_store_overrun _ _ _ hbig, ?_⟩
  rw [rxLoop_start specPacketH specPacketH_wf _ _ [] 5 (by norm_num) _ hN rfl]
  simp only [if_pos hbig]

/-- C2, as the code has it, at size 5 and the name `ab`. -/
theorem start_packet_round_trip_witness :
    ∃ stored : Nat → Nat,
      llread_store (MAX_PAYLOAD_SIZE specPacketH) (fun _ => 0)
          (send_packet specPacketH
            (create_control_packet specPacketH specPacketH.START 5 ([97, 98] ++ 0 :: [])) 0).1 =
        some stored ∧
      startBranch specPacketH stored specPacketH.sizeof_packet_type =
        some { file_size := 5, filename_length := 2, name_ptr := 27,
               file_name := [97, 98, 95, 116, 101, 115, 116] } := by
  obtain ⟨stored, h1, _, h3, _⟩ :=
    start_packet_round_trip specPacketH specPacketH_wf 5 (by norm_num) [97, 98] [] (by decide)
      (by decide) 0 (rxInit (fun _ => 0) 0 0) 4 (fun n => (n : Int)) []
  exact ⟨stored, h1, h3⟩

/-- C3 fails on the code at a fragment of 996 bytes (one-byte packet type,
`MAX_PAYLOAD_SIZE` 996): the packet `send_data_packet` builds is as the claim
says and has 1000 bytes, and `llread` overruns the array `packet_data` of 996
bytes with it; the receiver loop reaches no `write`. -/
theorem data_packet_overrun_at_996 :
    (List.replicate 996 7).length ≤ MAX_PAYLOAD_SIZE specPacketH ∧
      (send_data_packet specPacketH 0 (List.replicate 996 7) (List.replicate 996 7).length
          0).1.1 =
        leBytes specPacketH.sizeof_packet_type specPacketH.DATA ++ [0, 3, 228] ++
          List.replicate 996 7 ∧
      (send_data_packet specPacketH 0 (List.replicate 996 7) (List.replicate 996 7).length
          0).1.1.length = 1000 ∧
      llread_store (MAX_PAYLOAD_SIZE specPacketH) (fun _ => 0)
        (send_data_packet specPacketH 0 (List.replicate 996 7) (List.replicate 996 7).length
          0).1.1 = none ∧
      rxLoop specPacketH (RxState.mk (fun _ => 0) 4 996 0)
        [RxIter.mk (some (send_data_packet specPacketH 0 (List.replicate 996 7)
          (List.replicate 996 7).length 0).1.1) 4 (fun n => (n : Int))] =
        ([], RxState.mk (fun _ => 0) 4 996 0, Outcome.overrun) := by
  have hlen : (List.replicate 996 7).length = 996 := List.length_replicate 996 7
  have hm : MAX_PAYLOAD_SIZE specPacketH = 996 := rfl
  have hw := data_wire specPacketH specPacketH_wf 0 (by decide) (List.replicate 996 7)
    (by rw [hlen, hm]) 0
  have hw2 : (send_data_packet specPacketH 0 (List.replicate 996 7)
      (List.replicate 996 7).length 0).1.1 = dataWire specPacketH 0 (List.replicate 996 7) :=
    send_data_eq_dataWire specPacketH 0 _ (by rw [hlen]; norm_num) 0
  have hl : (dataWire specPacketH 0 (List.replicate 996 7)).length = 1000 := by
    rw [dataWire, List.length_append, List.length_append, length_leBytes, hlen]
    rfl
  refine ⟨by rw [hlen, hm], ?_, ?_, ?_, ?_⟩
  · rw [hw, hlen]
  · rw [hw2, hl]
  · rw [hw2]
    exact llread_store_overrun _ _ _ (by rw [hl, hm]; norm_num)
  · rw [hw2]
    exact rxLoop_data_overrun specPacketH specPacketH_wf _ _ [] 0 _ (by rw [hlen, hm])
      (by rw [hlen, hm]; decide) rfl

/-- C4 at a file of 2500 bytes 7, named `a`. -/
theorem concrete_fragmentation_witness :
    sentPackets (applicationLayer_tx specPacketH 0 ([97] ++ 0 :: [])
        (okTxEnv (List.replicate 2500 7))).trace =
      [startWire specPacketH 2500 [97],
       leBytes specPacketH.sizeof_packet_type specPacketH.DATA ++ [0, 3, 228] ++
         (List.replicate 2500 7).take 996,
       leBytes specPacketH.sizeof_packet_type specPacketH.DATA ++ [1, 3, 228] ++
         ((List.replicate 2500 7).drop 996).take 996,
       leBytes specPacketH.sizeof_packet_type specPacketH.DATA ++ [2, 1, 252] ++
         (List.replicate 2500 7).drop 1992,
       endWire specPacketH] :=
  (concrete_fragmentation specPacketH specPacketH_wf rfl [97] [] (List.replicate 2500 7)
    (by decide) (List.length_replicate 2500 7) (okTxEnv (List.replicate 2500 7))
    (okTxEnv_succeeds _)).2.1

/-- C5 at a file of length 0 named `a`. -/
theorem fragmentation_bound_witness :
    sentPackets (applicationLayer_tx specPacketH 0 ([97] ++ 0 :: []) (okTxEnv [])).trace =
      [startWire specPacketH 0 [97], endWire specPacketH] :=
  (fragmentation_bound specPacketH specPacketH_wf rfl 0 ([97] ++ 0 :: []) (okTxEnv [])).2
    [97] [] rfl (by decide) (okTxEnv_succeeds _)

/-- C6 at 258 calls, all of which fail: the call at place 256 carries the number 0
again. -/
theorem sequence_numbering_witness :
    (send_data_calls specPacketH 0 (List.replicate 258 ([1], -1))).1[256]? =
      some (leBytes specPacketH.sizeof_packet_type specPacketH.DATA ++
        [256 % 256, [1].length % 65536 / 256 % 256, [1].length % 65536 % 256] ++ [1], -1) :=
  (sequence_numbering specPacketH (List.replicate 258 ([1], -1))).1 256 [1] (-1)
    (by rw [List.getElem?_replicate]; rfl)

/-- C7 as stated fails: a Data packet that declares two fragment bytes and holds
one is not rejected; two bytes are written, the second one whatever the buffer
held, and the loop goes on. -/
theorem short_packet_is_written :
    writes (rxLoop specPacketH (RxState.mk (fun _ => 7) 4 10 0)
        [RxIter.mk (some [1, 0, 0, 2, 65]) 0 (fun n => (n : Int))]).1 = [[65, 7]] ∧
      outputFile [] (rxLoop specPacketH (RxState.mk (fun _ => 7) 4 10 0)
        [RxIter.mk (some [1, 0, 0, 2, 65]) 0 (fun n => (n : Int))]).1 = [65, 7] ∧
      (rxLoop specPacketH (RxState.mk (fun _ => 7) 4 10 0)
        [RxIter.mk (some [1, 0, 0, 2, 65]) 0 (fun n => (n : Int))]).2.2 = Outcome.running := by
  decide

/-- C7, as the code has it, at a packet that declares two bytes and holds one. -/
theorem truncated_data_packet_witness :
    (rxLoop specPacketH (RxState.mk (fun _ => 7) 4 10 0)
        (RxIter.mk (some (leBytes specPacketH.sizeof_packet_type specPacketH.DATA ++
          [0, 0, 2] ++ [65])) 0 (fun n => (n : Int)) :: [])).1.head? =
      some (Event.write 4
        ([65] ++ readBytes (fun _ => 7) (specPacketH.sizeof_packet_type + 3 + [65].length)
          (0 * 256 + 2 - [65].length))
        (((0 * 256 + 2 : Nat) : Int))) :=
  truncated_data_packet specPacketH specPacketH_wf 0 0 2 (by decide) (by decide) (by decide)
    [65] (by decide) (by decide) (RxState.mk (fun _ => 7) 4 10 0) _ [] rfl

/-- C8 as stated fails: when the source file cannot be opened the run ends in
`exit(-1)` and `llclose` is not called. -/
theorem transmitter_exit_without_llclose :
    (applicationLayer_tx specPacketH 0 [97, 0] (TxEnv.mk true (-1) none 0 [])).outcome =
        Outcome.exited ∧
      Event.llclose ∉
        (applicationLayer_tx specPacketH 0 [97, 0] (TxEnv.mk true (-1) none 0 [])).trace := by
  decide

/-- C8, as the code has it, at a file that cannot be opened. -/
theorem transmitter_release_witness :
    (applicationLayer_tx specPacketH 0 [97, 0] (TxEnv.mk true (-1) none 0 [])).trace.getLast? =
      some (Event.exit (-1)) :=
  ((transmitter_release specPacketH 0 [97, 0] (TxEnv.mk true (-1) none 0 []) rfl).1
    (Or.inl rfl)).2.1

/-- C10 at a run of one fragment and the end of the file. -/
theorem end_packet_discipline_witness :
    endWire specPacketH ∈
        sentPackets (txLoop specPacketH 0
          [TxIter.mk (fun _ => some [1, 2]) 0, TxIter.mk (fun _ => some []) (-1)]).1 ↔
      eofFirst specPacketH
        [TxIter.mk (fun _ => some [1, 2]) 0, TxIter.mk (fun _ => some []) (-1)] :=
  (end_packet_discipline specPacketH specPacketH_wf 0
    [TxIter.mk (fun _ => some [1, 2]) 0, TxIter.mk (fun _ => some []) (-1)]).1

end AppLayer
